import Mathlib

set_option autoImplicit false
set_option maxHeartbeats 1000000

/-!
Verification of the work-efficient bucketing structure (`src/bucket.h`,
from "Julienne: A Framework for Parallel Graph Algorithms using
Work-efficient Bucketing", SPAA'17) against its specification.

The structure maintains `total_buckets` materialized slots: `open_buckets
= total_buckets - 1` open slots covering a contiguous window of bucket
numbers, plus one overflow slot.  `next_bucket` emits the next non-empty
bucket; `update_buckets` bulk-inserts `(identifier, slot)` pairs either
sequentially or by a blocked parallel counting sort.

Modelling conventions:
* `uintE` (the identifier/bucket-number type) is 32-bit unsigned on the
  reference platform (`lib/macros.h` is not among the sources); bucket
  numbers are modelled as `Nat` with `nullBkt = 2^32 - 1` the sentinel
  `std::numeric_limits<uintE>::max()`.  All values arising in the states
  the theorems quantify over stay below `2^32`, so no wrap-around
  correction is required there.
* `par_for` loops are modelled as sequential folds over the loop range:
  each parallel phase of the source writes pairwise disjoint cells, so
  every schedule computes the same function.
* The ambient worker count `nworkers()` is passed explicitly as `nw`.
-/

namespace Bucketing

/-- `NULL_BKT = std::numeric_limits<uintE>::max()`: the sentinel meaning
"no bucket".  Modelled from the spec: `uintE` is the 32-bit unsigned
identifier type (its definition in `lib/macros.h` is not among the
sources; the spec says `NULL_BKT` is the maximum representable value). -/
def nullBkt : Nat := 4294967295

/-- `bucket_order` from `src/bucket.h`. -/
inductive BucketOrder where
  | decreasing
  | increasing
deriving DecidableEq, Repr

/-- Modelled from the spec (§4.5, the `lib/dyn_arr.h` source is not
present): a `dyn_arr` storage slot.  `A` is the backing buffer, `size`
the number of logically valid items.  Geometric over-allocation is a
capacity optimisation invisible to the logical contents; `dynResize`
models `resize(delta)` as reserving exactly the requested space. -/
structure DynArr where
  A : List Nat
  size : Nat
deriving DecidableEq, Repr

/-- `resize(delta)`: reserve space for `delta` more items; `size` is left
untouched so that scatter writes by offset do not race with it. -/
def dynResize (a : DynArr) (delta : Nat) : DynArr :=
  { a with A := a.A ++ List.replicate delta 0 }

/-- `insert(v, pos)`: write `v` at offset `pos` past the current `size`
(`A[size + pos] = v`), leaving `size` untouched. -/
def dynInsert (a : DynArr) (v : Nat) (pos : Nat) : DynArr :=
  { a with A := a.A.set (a.size + pos) v }

/-- The logically valid contents of a slot: the first `size` entries. -/
def DynArr.content (a : DynArr) : List Nat := a.A.take a.size

/-- The `bucket` struct returned by `next_bucket`.  The constructor
leaves `num_filtered` uninitialised; the sentinel return never sets it,
modelled as `0`. -/
structure Bucket where
  id : Nat
  num_filtered : Nat
  identifiers : List Nat
deriving DecidableEq, Repr

/-- The bucketing structure `buckets<D>` (src/bucket.h).  The priority
oracle `d` is stored by value, as in the source.  `aborted` records that
the `assert(m == num_elms)` in `unpack` fired (it is not a field of the
C++ struct but models its abort). -/
structure Buckets where
  n : Nat
  d : Nat → Nat
  order : BucketOrder
  open_buckets : Nat
  total_buckets : Nat
  cur_bkt : Nat
  max_bkt : Nat
  cur_range : Nat
  num_elms : Nat
  allocated : Bool
  aborted : Bool
  bkts : List DynArr

/-- `bkts[b]` (reads out of range, which the source never does in the
states considered, default to an empty slot). -/
def getSlot (s : Buckets) (b : Nat) : DynArr := s.bkts.getD b ⟨[], 0⟩

/-- Write slot `b`. -/
def setSlot (s : Buckets) (b : Nat) (a : DynArr) : Buckets :=
  { s with bkts := s.bkts.set b a }

/-- `to_range` (src/bucket.h lines 339–356): map an absolute bucket
number to a window slot in `[0, open_buckets]`, or `NULL_BKT` if it lies
in the already-processed direction. -/
def to_range (s : Buckets) (bkt : Nat) : Nat :=
  match s.order with
  | .increasing =>
    if bkt < s.cur_range * s.open_buckets then nullBkt
    else if bkt < (s.cur_range + 1) * s.open_buckets then bkt % s.open_buckets
    else s.open_buckets
  | .decreasing =>
    if s.cur_range * s.open_buckets ≤ bkt then nullBkt
    else if (s.cur_range - 1) * s.open_buckets ≤ bkt then
      s.open_buckets - bkt % s.open_buckets - 1
    else s.open_buckets

/-- `get_bucket` (src/bucket.h lines 141–150): the destination slot for
an identifier moving from bucket number `prev` to `next`. -/
def get_bucket (s : Buckets) (prev next : Nat) : Nat :=
  let pb := to_range s prev
  let nb := to_range s next
  if nb ≠ nullBkt ∧ (prev = nullBkt ∨ pb ≠ nb ∨ nb = s.cur_bkt) then nb
  else nullBkt

/-- `get_cur_bucket_num` (src/bucket.h lines 358–364).  The decreasing
case uses truncated subtraction; in every state the theorems quantify
over it does not underflow. -/
def get_cur_bucket_num (s : Buckets) : Nat :=
  match s.order with
  | .increasing => s.cur_range * s.open_buckets + s.cur_bkt
  | .decreasing => s.cur_range * s.open_buckets - s.cur_bkt - 1

/-- `curBucketNonEmpty` (src/bucket.h line 295). -/
def curBucketNonEmpty (s : Buckets) : Bool := 0 < (getSlot s s.cur_bkt).size

/-- `insert_in_bucket` (src/bucket.h lines 288–293): append `val` at
`bkts[b].A[size]` and bump `size`. -/
def insert_in_bucket (s : Buckets) (b : Nat) (v : Nat) : Buckets :=
  let a := getSlot s b
  setSlot s b { a with A := a.A.set a.size v, size := a.size + 1 }

/-- Modelled from the spec: the sequential-execution threshold
`pbbs::kSequentialForThreshold` (the parallel support library is not
among the sources, and the spec does not fix the value; no claim depends
on it). -/
def kSequentialForThreshold : Nat := 2048

/-- `update_buckets_seq` (src/bucket.h lines 273–286): for each `i < k`,
if `f i` exists and its destination slot is not `NULL_BKT`, grow that
slot by one, append the identifier, and bump `num_elms`. -/
def update_buckets_seq (f : Nat → Option (Nat × Nat)) (k : Nat) (s : Buckets) :
    Buckets × Nat :=
  let ne_before := s.num_elms
  let s' := (List.range k).foldl (fun st i =>
    match f i with
    | some (v, bkt) =>
      if bkt ≠ nullBkt then
        let st1 := setSlot st bkt (dynResize (getSlot st bkt) 1)
        { insert_in_bucket st1 bkt v with num_elms := st1.num_elms + 1 }
      else st
    | none => st) s
  (s', s'.num_elms - ne_before)

/-- Pointwise update of a function, modelling a scratch-array cell
write. -/
def fnUpdate (h : Nat → Nat) (i : Nat) (x : Nat) : Nat → Nat :=
  fun j => if j = i then x else h j

def CACHE_LINE_S : Nat := 64

/-- `pbbs::log2_up`: the least `b` with `2^b ≥ m`.  Modelled from the
spec (§4.3: `B = 2^⌈log₂(k/4096)⌉`); the library source is not
present. -/
def log2_up (m : Nat) : Nat := Nat.clog 2 m

/-- `num_blocks = 1 << log2_up(k / 4096)` (src/bucket.h lines 166,
174–175). -/
def parNumBlocks (k : Nat) : Nat := 2 ^ log2_up (k / 4096)

/-- `block_size = (k + num_blocks - 1) / num_blocks` (line 176). -/
def parBlockSize (k : Nat) : Nat := (k + parNumBlocks k - 1) / parNumBlocks k

/-- Block `i` of the batch index space: `[i*block_size, min(i*block_size
+ block_size, k))` (lines 185–186 and 233–234). -/
def blkRange (k i : Nat) : List Nat :=
  List.range' (i * parBlockSize k)
    (min (i * parBlockSize k + parBlockSize k) k - i * parBlockSize k)

/-- Step 1, zeroing loop (lines 189–191). -/
def histZero (T i : Nat) (h : Nat → Nat) : Nat → Nat :=
  (List.range T).foldl (fun h j => fnUpdate h (i * T + j) 0) h

/-- Step 1, tally loop body (lines 192–198). -/
def histCount (f : Nat → Option (Nat × Nat)) (T i : Nat) (h : Nat → Nat) (j : Nat) :
    Nat → Nat :=
  match f j with
  | some (_, b) =>
    if b ≠ nullBkt then fnUpdate h (i * T + b) (h (i * T + b) + 1) else h
  | none => h

/-- Step 1, one block's histogram (lines 184–199). -/
def histBlock (f : Nat → Option (Nat × Nat)) (k T : Nat) (h : Nat → Nat) (i : Nat) :
    Nat → Nat :=
  (blkRange k i).foldl (histCount f T i) (histZero T i h)

/-- Step 1 (lines 184–199): per-block histograms.  The scratch array is
a function; `new_array_no_init` cells read 0, unobservable since every
cell the source reads is written first. -/
def parHists (f : Nat → Option (Nat × Nat)) (k T : Nat) : Nat → Nat :=
  (List.range (parNumBlocks k)).foldl (histBlock f k T) (fun _ => 0)

/-- Step 2 (lines 202–206): read the histograms in slot-major order. -/
def parGet (f : Nat → Option (Nat × Nat)) (k T : Nat) : Nat → Nat :=
  fun i => parHists f k T ((i % parNumBlocks k) * T + i / parNumBlocks k)

/-- Step 2 (lines 208–212): `pbbs::scan_add`, the exclusive prefix sum
of `parGet` (modelled from the spec; `outs[num_blocks*T]` holds the
total, which the same formula gives uniformly). -/
def parOuts (f : Nat → Option (Nat × Nat)) (k T : Nat) : Nat → Nat :=
  fun i => ∑ j ∈ Finset.range i, parGet f k T j

/-- `num_inc` for slot `i` (lines 216, 250). -/
def parNumInc (f : Nat → Option (Nat × Nat)) (k T i : Nat) : Nat :=
  parOuts f k T ((i + 1) * parNumBlocks k) - parOuts f k T (i * parNumBlocks k)

/-- Step 3 (lines 215–219): resize each slot and bump `num_elms`. -/
def parResize (f : Nat → Option (Nat × Nat)) (k T : Nat) (s : Buckets) : Buckets :=
  (List.range T).foldl (fun st i =>
    { setSlot st i (dynResize (getSlot st i) (parNumInc f k T i)) with
        num_elms := st.num_elms + parNumInc f k T i }) s

/-- Step 4, one row of cursors (lines 223–227). -/
def rebaseRow (f : Nat → Option (Nat × Nat)) (k T : Nat) (h : Nat → Nat) (i : Nat) :
    Nat → Nat :=
  (List.range (parNumBlocks k)).foldl (fun h j =>
    fnUpdate h ((i * parNumBlocks k + j) * CACHE_LINE_S)
      (parOuts f k T (i * parNumBlocks k + j) -
       parOuts f k T (i * parNumBlocks k))) h

/-- Step 4 (lines 222–228): per-(slot, block) insertion cursors, written
into the (cache-line strided) histogram array. -/
def parRebase (f : Nat → Option (Nat × Nat)) (k T : Nat) : Nat → Nat :=
  (List.range T).foldl (rebaseRow f k T) (parHists f k T)

/-- Step 5, scatter of a single batch item of block `i` (lines
236–245). -/
def scatStep (f : Nat → Option (Nat × Nat)) (k i : Nat)
    (p : Buckets × (Nat → Nat)) (j : Nat) : Buckets × (Nat → Nat) :=
  match f j with
  | some (v, b) =>
    if b ≠ nullBkt then
      let ind := p.2 ((b * parNumBlocks k + i) * CACHE_LINE_S)
      (setSlot p.1 b (dynInsert (getSlot p.1 b) v ind),
       fnUpdate p.2 ((b * parNumBlocks k + i) * CACHE_LINE_S) (ind + 1))
    else p
  | none => p

/-- Step 5, scatter of one block (lines 232–246). -/
def scatBlock (f : Nat → Option (Nat × Nat)) (k : Nat)
    (p : Buckets × (Nat → Nat)) (i : Nat) : Buckets × (Nat → Nat) :=
  (blkRange k i).foldl (scatStep f k i) p

/-- Step 5 (lines 232–246): scatter every batch item into its slot at
the current per-(slot, block) cursor, bumping the cursor. -/
def parScatter (f : Nat → Option (Nat × Nat)) (k _T : Nat)
    (p0 : Buckets × (Nat → Nat)) : Buckets × (Nat → Nat) :=
  (List.range (parNumBlocks k)).foldl (scatBlock f k) p0

/-- Step 6 (lines 249–253): commit the grown count to each slot's
size. -/
def parCommit (f : Nat → Option (Nat × Nat)) (k T : Nat) (s : Buckets) : Buckets :=
  (List.range T).foldl (fun st i =>
    setSlot st i { getSlot st i with size := (getSlot st i).size + parNumInc f k T i }) s

/-- The parallel blocked-counting-sort path of `update_buckets`
(src/bucket.h lines 164–258), phase by phase: per-block histograms,
slot-major exclusive prefix sum, slot resize, cursor rebase, scatter,
size commit.  Each `par_for` is modelled as a fold over its range: every
parallel phase of the source writes pairwise disjoint cells, so every
schedule computes this function. -/
def update_buckets_par (f : Nat → Option (Nat × Nat)) (k : Nat) (s : Buckets) :
    Buckets × Nat :=
  let ne_before := s.num_elms
  let T := s.total_buckets
  let s2 := parCommit f k T
    (parScatter f k T (parResize f k T s, parRebase f k T)).1
  (s2, s2.num_elms - ne_before)

/-- `update_buckets` (src/bucket.h lines 164–169): dispatch to the
sequential path for small batches or a single worker, else the parallel
path.  `nw` is the ambient `nworkers()`. -/
def update_buckets (nw : Nat) (f : Nat → Option (Nat × Nat)) (k : Nat) (s : Buckets) :
    Buckets × Nat :=
  if k < kSequentialForThreshold ∨ nw = 1 then update_buckets_seq f k s
  else update_buckets_par f k s

/-- `unpack` (src/bucket.h lines 297–327): copy the overflow slot out,
advance the range, zero the overflow size, re-insert the copied
identifiers under the new range, and compensate `num_elms`.  When
`m ≠ num_elms` the source prints a diagnostic, sets `cur_bkt = 0`, and
`assert`s; this is modelled by the `aborted` flag. -/
def unpack (nw : Nat) (s : Buckets) : Buckets :=
  let m := (getSlot s s.open_buckets).size
  let tmp := (getSlot s s.open_buckets).A.take m
  let s1 := { s with cur_range :=
    (match s.order with
     | .increasing => s.cur_range + 1
     | .decreasing => s.cur_range - 1) }
  let s2 := setSlot s1 s1.open_buckets { getSlot s1 s1.open_buckets with size := 0 }
  let g : Nat → Option (Nat × Nat) := fun i =>
    some (tmp.getD i 0, to_range s2 (s2.d (tmp.getD i 0)))
  let s3 := if m ≠ s2.num_elms then { s2 with aborted := true, cur_bkt := 0 } else s2
  let s4 := (update_buckets nw g m s3).1
  { s4 with num_elms := s4.num_elms - m }

/-- `_next_bucket` (src/bucket.h lines 329–335): advance the open-slot
cursor; when it reaches `open_buckets`, unpack and reset it. -/
def next_bucket_step (nw : Nat) (s : Buckets) : Buckets :=
  let s1 := { s with cur_bkt := s.cur_bkt + 1 }
  if s1.cur_bkt = s1.open_buckets then { unpack nw s1 with cur_bkt := 0 } else s1

/-- The draining part of `get_cur_bucket` (src/bucket.h lines 366–384):
take the current slot, subtract its pre-filter size from `num_elms`,
filter out identifiers whose current mapping is not this bucket number,
and zero the slot. -/
def drain (s : Buckets) : Bucket × Buckets :=
  let a := getSlot s s.cur_bkt
  let sz := a.size
  let cur_bkt_num := get_cur_bucket_num s
  let out := (a.A.take sz).filter (fun i => s.d i = cur_bkt_num)
  ({ id := cur_bkt_num, num_filtered := sz, identifiers := out },
   { setSlot s s.cur_bkt { a with size := 0 } with num_elms := s.num_elms - sz })

/-- `next_bucket` (src/bucket.h lines 127–137) together with the
`m == 0` tail-recursion of `get_cur_bucket`, with explicit fuel for the
advance/unpack loop; `none` means the fuel ran out (the source simply
keeps looping). -/
def next_bucket (nw : Nat) : Nat → Buckets → Option (Bucket × Buckets)
  | 0, _ => none
  | fu + 1, s =>
    if curBucketNonEmpty s = false ∧ 0 < s.num_elms then
      next_bucket nw fu (next_bucket_step nw s)
    else if s.num_elms = 0 then
      some ({ id := nullBkt, num_filtered := 0, identifiers := [] }, s)
    else
      let bs := drain s
      if bs.1.identifiers = [] then next_bucket nw fu bs.2
      else some bs

/-- `pbbs::reduce(imap, min)` seeding the increasing order.  Modelled
from the spec (§4.1, parallel min reduction; the library source is not
present): a fold of `min` over the image of `d`, starting from the
`uintE` identity `NULL_BKT`. -/
def reduceMin (n : Nat) (d : Nat → Nat) : Nat :=
  (List.range n).foldl (fun a i => min a (d i)) nullBkt

/-- `pbbs::reduce(imap, max)` seeding the decreasing order, with
`NULL_BKT` mapped to 0 as in the source.  Modelled from the spec (§4.1):
a fold of `max` starting from 0. -/
def reduceMax (n : Nat) (d : Nat → Nat) : Nat :=
  (List.range n).foldl (fun a i => max a (if d i = nullBkt then 0 else d i)) 0

/-- The constructor `buckets(n, d, order, total_buckets)` /
`make_buckets` (src/bucket.h lines 81–123 and 387–391). -/
def make_buckets (nw : Nat) (n : Nat) (d : Nat → Nat) (order : BucketOrder)
    (total_buckets : Nat) : Buckets :=
  let open_buckets := total_buckets - 1
  let cur_range := match order with
    | .increasing => reduceMin n d / open_buckets
    | .decreasing => (reduceMax n d + open_buckets) / open_buckets
  let s0 : Buckets :=
    { n := n, d := d, order := order,
      open_buckets := open_buckets, total_buckets := total_buckets,
      cur_bkt := 0, max_bkt := total_buckets, cur_range := cur_range,
      num_elms := 0, allocated := true, aborted := false,
      bkts := List.replicate total_buckets ⟨[], 0⟩ }
  let get_id_and_bkt : Nat → Option (Nat × Nat) := fun i =>
    some (i, if d i ≠ nullBkt then to_range s0 (d i) else d i)
  (update_buckets nw get_id_and_bkt n s0).1

/-- Iterate `next_bucket` until it returns the `NULL_BKT` sentinel,
collecting the emitted buckets; `none` means the fuel ran out. -/
def emitsAll (nw : Nat) : Nat → Buckets → Option (List Bucket)
  | 0, _ => none
  | fu + 1, s =>
    match next_bucket nw (fu + 1) s with
    | none => none
    | some (b, s') =>
      if b.id = nullBkt then some []
      else match emitsAll nw fu s' with
        | none => none
        | some l => some (b :: l)

/-! ### Reference characterisation of bulk updates

`update_buckets_seq` and `update_buckets_par` are both shown to equal
`updRef`, a slot-wise description of the batch's effect. -/

/-- The effective part of batch entry `j`: `f j` when it exists and its
destination is not `NULL_BKT`. -/
def hitOf (f : Nat → Option (Nat × Nat)) (j : Nat) : Option (Nat × Nat) :=
  match f j with
  | some (v, b) => if b ≠ nullBkt then some (v, b) else none
  | none => none

/-- The identifiers of the batch destined for slot `b`, in index order. -/
def itemsFor (f : Nat → Option (Nat × Nat)) (k b : Nat) : List Nat :=
  (List.range k).filterMap (fun j => match hitOf f j with
    | some (v, b') => if b' = b then some v else none
    | none => none)

/-- The number of effective batch entries. -/
def hitCount (f : Nat → Option (Nat × Nat)) (k : Nat) : Nat :=
  (List.range k).countP (fun j => (hitOf f j).isSome)

/-- Overwrite `A` at positions `p, p+1, …` with the entries of `l`. -/
def listWrite (A : List Nat) (p : Nat) (l : List Nat) : List Nat :=
  A.take p ++ l ++ A.drop (p + l.length)

/-- The effect of the batch on slot `b`. -/
def refSlot (f : Nat → Option (Nat × Nat)) (k b : Nat) (a : DynArr) : DynArr :=
  let its := itemsFor f k b
  { A := listWrite (a.A ++ List.replicate its.length 0) a.size its,
    size := a.size + its.length }

/-- Slot-wise description of `update_buckets` on a batch with valid
destinations. -/
def updRef (f : Nat → Option (Nat × Nat)) (k : Nat) (s : Buckets) : Buckets × Nat :=
  ({ s with
      bkts := (List.range s.bkts.length).map (fun b => refSlot f k b (getSlot s b)),
      num_elms := s.num_elms + hitCount f k },
   hitCount f k)

/-- Every effective destination of the batch addresses a materialized
slot. -/
def DestsBelow (f : Nat → Option (Nat × Nat)) (k L : Nat) : Prop :=
  ∀ j, j < k → ∀ v b, f j = some (v, b) → b ≠ nullBkt → b < L

/-- Every slot's logical size is within its buffer. -/
def SlotsWF (s : Buckets) : Prop := ∀ a ∈ s.bkts, a.size ≤ a.A.length

/-! #### List toolkit -/

theorem length_listWrite {A l : List Nat} {p : Nat} (h : p + l.length ≤ A.length) :
    (listWrite A p l).length = A.length := by
  simp only [listWrite, List.length_append, List.length_take, List.length_drop]
  omega

theorem getElem?_listWrite {A l : List Nat} {p : Nat} (h : p + l.length ≤ A.length)
    (i : Nat) :
    (listWrite A p l)[i]? =
      if i < p then A[i]?
      else if i < p + l.length then l[i - p]?
      else A[i]? := by
  have hp : p ≤ A.length := by omega
  have hlt : (A.take p).length = p := by
    simp [Nat.min_eq_left hp]
  have hlt2 : (A.take p ++ l).length = p + l.length := by
    simp [hlt]
  unfold listWrite
  rw [@List.getElem?_append _ (A.take p ++ l) _ _, hlt2]
  rcases Nat.lt_or_ge i p with hip | hip
  · rw [if_pos (by omega), List.getElem?_append, hlt, if_pos hip,
      List.getElem?_take, if_pos hip, if_pos hip]
  · rcases Nat.lt_or_ge i (p + l.length) with hil | hil
    · rw [if_pos hil, List.getElem?_append, hlt, if_neg (by omega),
        if_neg (by omega), if_pos hil]
    · rw [if_neg (by omega), List.getElem?_drop, if_neg (by omega),
        if_neg (by omega)]
      congr 1
      omega

theorem listWrite_nil {A : List Nat} {p : Nat} :
    listWrite A p [] = A := by
  simp [listWrite]

theorem listWrite_snoc {A l : List Nat} {p : Nat} (v : Nat)
    (h : p + l.length ≤ A.length) :
    (listWrite A p l ++ [0]).set (p + l.length) v =
      listWrite (A ++ [0]) p (l ++ [v]) := by
  have h1 : p + (l ++ [v]).length ≤ (A ++ [0]).length := by
    simp only [List.length_append, List.length_singleton]; omega
  have hlen : (listWrite A p l).length = A.length := length_listWrite h
  have e1 : (l ++ [v]).length = l.length + 1 := by simp
  have e2 : (A ++ [0]).length = A.length + 1 := by simp
  apply List.ext_getElem?
  intro i
  rw [List.getElem?_set, getElem?_listWrite h1,
    @List.getElem?_append _ (listWrite A p l) _ _, hlen]
  simp only [List.length_append, List.length_singleton]
  rcases Nat.lt_trichotomy i (p + l.length) with hi | hi | hi
  · rcases Nat.lt_or_ge i p with hip | hip
    · rw [if_neg (by omega), if_pos (by omega), if_pos hip,
        getElem?_listWrite h i, if_pos hip, List.getElem?_append,
        if_pos (by omega)]
    · rw [if_neg (by omega), if_pos (by omega), if_neg (by omega),
        if_pos (by omega), getElem?_listWrite h i, if_neg (by omega), if_pos hi,
        List.getElem?_append, if_pos (by omega)]
  · rw [if_pos hi.symm, if_pos (by omega), if_neg (by omega), if_pos (by omega),
      List.getElem?_append_right (by omega)]
    subst hi
    simp
  · rcases Nat.lt_or_ge i A.length with hiA | hiA
    · rw [if_neg (by omega), if_pos hiA, if_neg (by omega), if_neg (by omega),
        getElem?_listWrite h i, if_neg (by omega), if_neg (by omega),
        List.getElem?_append, if_pos hiA]
    · rw [if_neg (by omega), if_neg (by omega), if_neg (by omega),
        if_neg (by omega), List.getElem?_append_right (by omega)]

theorem content_refSlot {f : Nat → Option (Nat × Nat)} {k b : Nat} {a : DynArr}
    (h : a.size ≤ a.A.length) :
    (refSlot f k b a).content = a.content ++ itemsFor f k b := by
  set its := itemsFor f k b with hits
  have h1 : a.size + its.length ≤ (a.A ++ List.replicate its.length 0).length := by
    simp only [List.length_append, List.length_replicate]; omega
  have hct : (a.A.take a.size).length = a.size := by
    simp [Nat.min_eq_left h]
  apply List.ext_getElem?
  intro i
  simp only [refSlot, DynArr.content, ← hits]
  rw [List.getElem?_take, @List.getElem?_append _ (a.A.take a.size) _ _, hct]
  rcases Nat.lt_or_ge i a.size with hi | hi
  · rw [if_pos (by omega), if_pos hi, getElem?_listWrite h1 i, if_pos hi,
      List.getElem?_take, if_pos hi, List.getElem?_append, if_pos (by omega)]
  · rcases Nat.lt_or_ge i (a.size + its.length) with hil | hil
    · rw [if_pos hil, if_neg (by omega), getElem?_listWrite h1 i,
        if_neg (by omega), if_pos hil]
    · rw [if_neg (by omega), if_neg (by omega),
        List.getElem?_eq_none (by omega)]

theorem size_refSlot {f : Nat → Option (Nat × Nat)} {k b : Nat} {a : DynArr} :
    (refSlot f k b a).size = a.size + (itemsFor f k b).length := rfl

/-! #### Sequential path equals the reference -/

/-- The body of the `update_buckets_seq` loop. -/
def seqStep (f : Nat → Option (Nat × Nat)) (st : Buckets) (i : Nat) : Buckets :=
  match f i with
  | some (v, bkt) =>
    if bkt ≠ nullBkt then
      let st1 := setSlot st bkt (dynResize (getSlot st bkt) 1)
      { insert_in_bucket st1 bkt v with num_elms := st1.num_elms + 1 }
    else st
  | none => st

theorem update_buckets_seq_as_fold (f : Nat → Option (Nat × Nat)) (k : Nat) (s : Buckets) :
    update_buckets_seq f k s =
      ((List.range k).foldl (seqStep f) s,
       ((List.range k).foldl (seqStep f) s).num_elms - s.num_elms) := rfl

theorem seqStep_miss {f : Nat → Option (Nat × Nat)} {st : Buckets} {i : Nat}
    (h : hitOf f i = none) : seqStep f st i = st := by
  unfold seqStep
  unfold hitOf at h
  rcases hf : f i with _ | ⟨v, b⟩
  · simp [hf]
  · rw [hf] at h
    simp only at h
    by_cases hb : b ≠ nullBkt
    · simp [hb] at h
    · simp [hf, hb]

theorem getSlot_setSlot_self {s : Buckets} {b : Nat} {a : DynArr}
    (h : b < s.bkts.length) : getSlot (setSlot s b a) b = a := by
  simp [getSlot, setSlot, List.getD_eq_getElem?_getD, List.getElem?_set, h]

theorem getSlot_setSlot_ne {s : Buckets} {b b' : Nat} {a : DynArr}
    (h : b ≠ b') : getSlot (setSlot s b a) b' = getSlot s b' := by
  simp [getSlot, setSlot, List.getD_eq_getElem?_getD, List.getElem?_set, h]

theorem seqStep_hit {f : Nat → Option (Nat × Nat)} {st : Buckets} {i v b : Nat}
    (h : hitOf f i = some (v, b)) (hb : b < st.bkts.length) :
    seqStep f st i =
      { st with
          bkts := st.bkts.set b
            { A := ((getSlot st b).A ++ [0]).set (getSlot st b).size v,
              size := (getSlot st b).size + 1 },
          num_elms := st.num_elms + 1 } := by
  unfold hitOf at h
  rcases hf : f i with _ | ⟨v', b'⟩
  · rw [hf] at h; simp at h
  · rw [hf] at h
    simp only at h
    by_cases hbn : b' ≠ nullBkt
    · rw [if_pos hbn] at h
      injection h with h
      injection h with h1 h2
      subst h1; subst h2
      unfold seqStep
      rw [hf]
      simp only [if_pos hbn]
      have hget : getSlot (setSlot st b' (dynResize (getSlot st b') 1)) b' =
          dynResize (getSlot st b') 1 := getSlot_setSlot_self hb
      unfold insert_in_bucket
      rw [hget]
      unfold setSlot dynResize
      simp only [List.set_set, List.replicate_one]
    · simp [hbn] at h


theorem getSlot_eq_getElem {s : Buckets} {b : Nat} (h : b < s.bkts.length) :
    getSlot s b = s.bkts[b] := by
  simp [getSlot, List.getD_eq_getElem?_getD, List.getElem?_eq_getElem h]

theorem itemsFor_succ (f : Nat → Option (Nat × Nat)) (k b : Nat) :
    itemsFor f (k + 1) b =
      itemsFor f k b ++ (match hitOf f k with
        | some (v, b') => if b' = b then [v] else []
        | none => []) := by
  unfold itemsFor
  rw [List.range_succ, List.filterMap_append]

  congr 1
  rcases h : hitOf f k with _ | ⟨v, b'⟩
  · simp [h]
  · by_cases hb : b' = b <;> simp [h, hb]

theorem hitCount_succ (f : Nat → Option (Nat × Nat)) (k : Nat) :
    hitCount f (k + 1) =
      hitCount f k + (if (hitOf f k).isSome then 1 else 0) := by
  unfold hitCount
  rw [List.range_succ, List.countP_append]
  congr 1
  by_cases h : (hitOf f k).isSome <;> simp [h]

theorem refSlot_zero (f : Nat → Option (Nat × Nat)) (b : Nat) (a : DynArr) :
    refSlot f 0 b a = a := by
  have h : itemsFor f 0 b = [] := rfl
  simp only [refSlot, h, List.length_nil, List.replicate_zero, List.append_nil,
    listWrite_nil, Nat.add_zero]

theorem map_getSlot_range (s : Buckets) :
    (List.range s.bkts.length).map (fun b => getSlot s b) = s.bkts := by
  apply List.ext_getElem?
  intro i
  rw [List.getElem?_map]
  rcases Nat.lt_or_ge i s.bkts.length with h | h
  · rw [List.getElem?_range h, List.getElem?_eq_getElem h]
    simp [getSlot_eq_getElem h]
  · rw [List.getElem?_eq_none (by simpa using h), List.getElem?_eq_none h]
    rfl

theorem updRef_zero (f : Nat → Option (Nat × Nat)) (s : Buckets) :
    updRef f 0 s = (s, 0) := by
  unfold updRef
  have h0 : hitCount f 0 = 0 := rfl
  simp only [h0, Nat.add_zero, refSlot_zero]
  rw [map_getSlot_range]

theorem length_updRef_bkts (f : Nat → Option (Nat × Nat)) (k : Nat) (s : Buckets) :
    (updRef f k s).1.bkts.length = s.bkts.length := by
  simp [updRef]

theorem getSlot_updRef {f : Nat → Option (Nat × Nat)} {k : Nat} {s : Buckets} {b : Nat}
    (h : b < s.bkts.length) :
    getSlot (updRef f k s).1 b = refSlot f k b (getSlot s b) := by
  have h' : b < (updRef f k s).1.bkts.length := by rw [length_updRef_bkts]; exact h
  rw [getSlot_eq_getElem h']
  simp only [updRef]
  rw [List.getElem_map, List.getElem_range]

theorem bucketsExt {s t : Buckets} (hn : s.n = t.n) (hd : s.d = t.d)
    (ho : s.order = t.order) (hob : s.open_buckets = t.open_buckets)
    (htb : s.total_buckets = t.total_buckets) (hcb : s.cur_bkt = t.cur_bkt)
    (hmb : s.max_bkt = t.max_bkt) (hcr : s.cur_range = t.cur_range)
    (hne : s.num_elms = t.num_elms) (hal : s.allocated = t.allocated)
    (hab : s.aborted = t.aborted) (hbk : s.bkts = t.bkts) : s = t := by
  cases s; cases t
  congr

theorem update_buckets_seq_eq_updRef (f : Nat → Option (Nat × Nat)) (k : Nat)
    (s : Buckets) (hWF : SlotsWF s) (hD : DestsBelow f k s.bkts.length) :
    update_buckets_seq f k s = updRef f k s := by
  induction k with
  | zero =>
    rw [updRef_zero, update_buckets_seq_as_fold]
    simp
  | succ k ih =>
    have hDk : DestsBelow f k s.bkts.length := fun j hj => hD j (by omega)
    have ihk := ih hDk
    rw [update_buckets_seq_as_fold] at ihk ⊢
    rw [List.range_succ, List.foldl_append, List.foldl_cons, List.foldl_nil]
    have hfold : (List.range k).foldl (seqStep f) s = (updRef f k s).1 := by
      have := congrArg Prod.fst ihk
      simpa using this
    rw [hfold]
    rcases hh : hitOf f k with _ | ⟨v, b⟩
    · rw [seqStep_miss hh]
      have href : updRef f (k + 1) s = updRef f k s := by
        unfold updRef
        have h1 : hitCount f (k + 1) = hitCount f k := by
          rw [hitCount_succ, hh]; rfl
        have h2 : ∀ b', itemsFor f (k + 1) b' = itemsFor f k b' := by
          intro b'
          rw [itemsFor_succ, hh]
          simp
        simp only [h1, refSlot, h2]
      rw [href]
      have hnum : (updRef f k s).1.num_elms = s.num_elms + hitCount f k := by
        simp [updRef]
      rw [hnum]
      simp [updRef, Nat.add_sub_cancel_left]
    · -- a real insertion at index k, destination b
      have hfb : f k = some (v, b) ∧ b ≠ nullBkt := by
        unfold hitOf at hh
        rcases hf : f k with _ | ⟨v', b'⟩
        · rw [hf] at hh; simp at hh
        · rw [hf] at hh
          simp only at hh
          by_cases hbn : b' ≠ nullBkt
          · rw [if_pos hbn] at hh
            injection hh with hh
            injection hh with h1 h2
            subst h1; subst h2
            exact ⟨rfl, hbn⟩
          · simp [hbn] at hh
      have hb : b < s.bkts.length := hD k (by omega) v b hfb.1 hfb.2
      have hb' : b < (updRef f k s).1.bkts.length := by
        rw [length_updRef_bkts]; exact hb
      rw [seqStep_hit hh hb']
      -- compute the result slot-wise
      have hga : getSlot (updRef f k s).1 b = refSlot f k b (getSlot s b) :=
        getSlot_updRef hb
      have hWFb : (getSlot s b).size ≤ (getSlot s b).A.length := by
        rw [getSlot_eq_getElem hb]
        exact hWF _ (List.getElem_mem hb)
      have hitems : itemsFor f (k + 1) b = itemsFor f k b ++ [v] := by
        rw [itemsFor_succ, hh]
        simp
      have hslot :
          ({ A := ((getSlot (updRef f k s).1 b).A ++ [0]).set
                (getSlot (updRef f k s).1 b).size v,
             size := (getSlot (updRef f k s).1 b).size + 1 } : DynArr) =
            refSlot f (k + 1) b (getSlot s b) := by
        rw [hga]
        set a := getSlot s b with ha
        have hsz : (refSlot f k b a).size = a.size + (itemsFor f k b).length :=
          size_refSlot
        have hA : (refSlot f k b a).A =
            listWrite (a.A ++ List.replicate (itemsFor f k b).length 0) a.size
              (itemsFor f k b) := rfl
        rw [hsz, hA]
        have hle : a.size + (itemsFor f k b).length ≤
            (a.A ++ List.replicate (itemsFor f k b).length 0).length := by
          simp only [List.length_append, List.length_replicate]
          omega
        have := listWrite_snoc (A := a.A ++ List.replicate (itemsFor f k b).length 0)
          (l := itemsFor f k b) (p := a.size) v (by
            simp only [List.length_append, List.length_replicate]; omega)
        unfold refSlot
        rw [hitems]
        simp only [List.length_append, List.length_singleton]
        rw [this]
        have hcc : a.A ++ List.replicate (itemsFor f k b).length 0 ++ [0] =
            a.A ++ List.replicate ((itemsFor f k b).length + 1) 0 := by
          rw [List.append_assoc, ← List.replicate_succ']
        rw [hcc, Nat.add_assoc]
      rw [hslot]
      -- now prove the two states agree
      have hnum : (updRef f k s).1.num_elms = s.num_elms + hitCount f k := by
        simp [updRef]
      have hcnt : hitCount f (k + 1) = hitCount f k + 1 := by
        rw [hitCount_succ, hh]; rfl
      have hbkts : (updRef f k s).1.bkts.set b (refSlot f (k + 1) b (getSlot s b)) =
          (updRef f (k + 1) s).1.bkts := by
        apply List.ext_getElem?
        intro i
        rw [List.getElem?_set]
        simp only [updRef, length_updRef_bkts]
        rcases Nat.lt_or_ge i s.bkts.length with hi | hi
        · rw [List.getElem?_eq_getElem (by simpa using hi),
            List.getElem?_eq_getElem (by simpa using hi)]
          simp only [List.getElem_map, List.getElem_range, Option.some_inj]
          by_cases hbi : b = i
          · subst hbi
            simp [hi]
          · rw [if_neg hbi]
            -- slots other than b are unchanged by the k-th item
            have : itemsFor f (k + 1) i = itemsFor f k i := by
              rw [itemsFor_succ, hh]
              simp [hbi]
            simp only [refSlot, this]
        · rw [if_neg (show ¬ b = i by omega),
            List.getElem?_eq_none (by simpa using hi),
            List.getElem?_eq_none (by simpa using hi)]
      have hX : ({ (updRef f k s).1 with
          bkts := (updRef f k s).1.bkts.set b (refSlot f (k + 1) b (getSlot s b)),
          num_elms := (updRef f k s).1.num_elms + 1 } : Buckets) =
          (updRef f (k + 1) s).1 := by
        refine bucketsExt rfl rfl rfl rfl rfl rfl rfl rfl ?_ rfl rfl ?_
        · show (updRef f k s).1.num_elms + 1 = (updRef f (k + 1) s).1.num_elms
          simp only [updRef]
          rw [hcnt]
          omega
        · show (updRef f k s).1.bkts.set b (refSlot f (k + 1) b (getSlot s b)) =
            (updRef f (k + 1) s).1.bkts
          exact hbkts
      rw [hX]
      have hsnd : (updRef f (k + 1) s).1.num_elms - s.num_elms = hitCount f (k + 1) := by
        simp [updRef]
      rw [hsnd]
      rfl

/-! #### The parallel path equals the reference -/

/-- The selector picking batch items destined for slot `b`. -/
def selFor (f : Nat → Option (Nat × Nat)) (b : Nat) : Nat → Option Nat := fun j =>
  match hitOf f j with
  | some (v, b') => if b' = b then some v else none
  | none => none

theorem itemsFor_eq_filterMap (f : Nat → Option (Nat × Nat)) (k b : Nat) :
    itemsFor f k b = (List.range k).filterMap (selFor f b) := rfl

/-- The items of block `i` destined for slot `b`. -/
def blkItems (f : Nat → Option (Nat × Nat)) (k i b : Nat) : List Nat :=
  (blkRange k i).filterMap (selFor f b)

/-- The per-block histogram value the source computes. -/
def blkCnt (f : Nat → Option (Nat × Nat)) (k i b : Nat) : Nat :=
  (blkItems f k i b).length

theorem parNumBlocks_pos (k : Nat) : 0 < parNumBlocks k :=
  Nat.pos_pow_of_pos _ (by norm_num)

theorem k_le_blocks_mul (k : Nat) : k ≤ parNumBlocks k * parBlockSize k := by
  have hB : 0 < parNumBlocks k := parNumBlocks_pos k
  unfold parBlockSize
  have h1 := Nat.div_add_mod (k + parNumBlocks k - 1) (parNumBlocks k)
  have h2 : (k + parNumBlocks k - 1) % parNumBlocks k < parNumBlocks k :=
    Nat.mod_lt _ hB
  omega

theorem blkRange_join_aux (k Bn : Nat) :
    (List.range Bn).flatMap (blkRange k) =
      List.range' 0 (min (Bn * parBlockSize k) k) := by
  induction Bn with
  | zero => simp
  | succ Bn ih =>
    rw [List.range_succ, List.flatMap_append, ih, List.flatMap_singleton]
    have hsm : (Bn + 1) * parBlockSize k = Bn * parBlockSize k + parBlockSize k := by
      ring
    rcases le_or_lt k (Bn * parBlockSize k) with h | h
    · have hnil : blkRange k Bn = [] := by
        unfold blkRange
        rw [List.range'_eq_nil]
        omega
      rw [hnil, List.append_nil]
      congr 1
      omega
    · unfold blkRange
      have hmin : min (Bn * parBlockSize k) k = Bn * parBlockSize k := by omega
      rw [hmin]
      have happ := List.range'_append 0 (Bn * parBlockSize k)
        (min (Bn * parBlockSize k + parBlockSize k) k - Bn * parBlockSize k) 1
      simp only [Nat.one_mul, Nat.zero_add] at happ
      rw [happ]
      congr 1
      omega

theorem blkRange_join (k : Nat) :
    (List.range (parNumBlocks k)).flatMap (blkRange k) = List.range k := by
  rw [blkRange_join_aux, Nat.min_eq_right (k_le_blocks_mul k), ← List.range_eq_range']

theorem filterMap_flatMap {α β γ : Type} (l : List α) (g : α → List β)
    (p : β → Option γ) :
    (l.flatMap g).filterMap p = l.flatMap (fun a => (g a).filterMap p) := by
  induction l with
  | nil => rfl
  | cons x l ih => simp [List.flatMap_cons, List.filterMap_append, ih]

theorem itemsFor_blocks (f : Nat → Option (Nat × Nat)) (k b : Nat) :
    itemsFor f k b =
      (List.range (parNumBlocks k)).flatMap (fun i => blkItems f k i b) := by
  rw [itemsFor_eq_filterMap, ← blkRange_join k, filterMap_flatMap]
  rfl

theorem length_filterMap_eq_countP {α β : Type} (p : α → Option β) (l : List α) :
    (l.filterMap p).length = l.countP (fun a => (p a).isSome) := by
  induction l with
  | nil => rfl
  | cons x l ih =>
    rw [List.filterMap_cons, List.countP_cons]
    rcases h : p x with _ | y
    · simp [h, ih]
    · simp [h, ih]

theorem fnUpdate_same (h : Nat → Nat) (i x : Nat) : fnUpdate h i x i = x := by
  simp [fnUpdate]

theorem fnUpdate_ne (h : Nat → Nat) (i x : Nat) {j : Nat} (hj : j ≠ i) :
    fnUpdate h i x j = h j := by
  simp [fnUpdate, hj]

theorem foldl_fnUpdate_out {idx val : Nat → Nat} {l : List Nat} {h : Nat → Nat}
    {c : Nat} (hc : ∀ j ∈ l, idx j ≠ c) :
    (l.foldl (fun h j => fnUpdate h (idx j) (val j)) h) c = h c := by
  induction l generalizing h with
  | nil => rfl
  | cons x l ih =>
    rw [List.foldl_cons, ih (fun j hj => hc j (List.mem_cons_of_mem x hj))]
    exact fnUpdate_ne _ _ _ (fun he => hc x (List.mem_cons_self x l) he.symm)

theorem foldl_fnUpdate_writes (idx val : Nat → Nat) (l : List Nat) (h : Nat → Nat)
    (j0 : Nat) (hmem : j0 ∈ l) (huniq : ∀ j ∈ l, idx j = idx j0 → j = j0) :
    (l.foldl (fun h j => fnUpdate h (idx j) (val j)) h) (idx j0) = val j0 := by
  induction l generalizing h with
  | nil => cases hmem
  | cons x l ih =>
    rw [List.foldl_cons]
    by_cases hx : j0 ∈ l
    · exact ih _ hx (fun j hj => huniq j (List.mem_cons_of_mem x hj))
    · have hx0 : x = j0 := by
        rcases List.mem_cons.mp hmem with h1 | h1
        · exact h1.symm
        · exact absurd h1 hx
      subst hx0
      rw [foldl_fnUpdate_out (fun j hj he => hx (by
        have := huniq j (List.mem_cons_of_mem x hj) he
        rwa [this] at hj))]
      exact fnUpdate_same _ _ _

/-- Which batch items bump histogram cell `c` in block `i` (the tally
condition of step 1). -/
def hitAt (f : Nat → Option (Nat × Nat)) (T i c : Nat) (j : Nat) : Bool :=
  match f j with
  | some (_, b) => decide (b ≠ nullBkt) && decide (i * T + b = c)
  | none => false

theorem histCount_foldl (f : Nat → Option (Nat × Nat)) (T i : Nat) (l : List Nat)
    (h : Nat → Nat) (c : Nat) :
    (l.foldl (histCount f T i) h) c = h c + l.countP (hitAt f T i c) := by
  induction l generalizing h with
  | nil => simp
  | cons x l ih =>
    rw [List.foldl_cons, ih, List.countP_cons]
    have hstep : histCount f T i h x c =
        h c + (if hitAt f T i c x then 1 else 0) := by
      unfold histCount hitAt
      rcases hf : f x with _ | ⟨v, b⟩
      · simp
      · by_cases hb : b ≠ nullBkt
        · simp only [if_pos hb]
          by_cases hc : i * T + b = c
          · subst hc
            rw [fnUpdate_same]
            simp [hb]
          · rw [fnUpdate_ne _ _ _ (fun he => hc he.symm)]
            simp [hc]
        · simp only [if_neg hb]
          simp only [ne_eq, not_not] at hb
          simp [hb]
    rw [hstep]
    omega

theorem blkRange_mem_lt {k i j : Nat} (hj : j ∈ blkRange k i) : j < k := by
  unfold blkRange at hj
  rw [List.mem_range'_1] at hj
  omega

theorem histZero_in {T i b : Nat} (hb : b < T) (h : Nat → Nat) :
    histZero T i h (i * T + b) = 0 := by
  unfold histZero
  have := foldl_fnUpdate_writes (fun j => i * T + j) (fun _ => 0)
    (List.range T) h b (List.mem_range.mpr hb)
    (fun j _ he => by dsimp only at he; omega)
  exact this

theorem histZero_out {T i c : Nat} (hc : ∀ b, b < T → c ≠ i * T + b) (h : Nat → Nat) :
    histZero T i h c = h c := by
  unfold histZero
  exact foldl_fnUpdate_out (fun j hj he =>
    hc j (List.mem_range.mp hj) he.symm)

theorem histBlock_at {f : Nat → Option (Nat × Nat)} {k T i b : Nat}
    (hb : b < T) (h : Nat → Nat) :
    histBlock f k T h i (i * T + b) = blkCnt f k i b := by
  unfold histBlock
  rw [histCount_foldl, histZero_in hb, Nat.zero_add]
  rw [blkCnt, blkItems, length_filterMap_eq_countP]
  apply List.countP_congr
  intro j _
  unfold hitAt selFor hitOf
  rcases hf : f j with _ | ⟨v, b'⟩
  · simp
  · by_cases hbn : b' ≠ nullBkt
    · simp only [if_pos hbn]
      by_cases hbb : b' = b
      · subst hbb
        simp [hbn]
      · have : ¬ i * T + b' = i * T + b := by omega
        simp [hbn, hbb, this]
    · simp [hbn]

theorem histBlock_out {f : Nat → Option (Nat × Nat)} {k T i c : Nat}
    (hD : DestsBelow f k T) (hc : ∀ b, b < T → c ≠ i * T + b) (h : Nat → Nat) :
    histBlock f k T h i c = h c := by
  unfold histBlock
  rw [histCount_foldl, histZero_out hc]
  have hz : (blkRange k i).countP (hitAt f T i c) = 0 := by
    rw [List.countP_eq_zero]
    intro j hj
    unfold hitAt
    rcases hf : f j with _ | ⟨v, b⟩
    · simp
    · by_cases hbn : b ≠ nullBkt
      · have hbT : b < T := hD j (blkRange_mem_lt hj) v b hf hbn
        have : ¬ i * T + b = c := fun he => hc b hbT he.symm
        simp [this]
      · simp only [ne_eq, not_not] at hbn
        simp [hbn]
  rw [hz, Nat.add_zero]

theorem parHists_at {f : Nat → Option (Nat × Nat)} {k T : Nat}
    (hD : DestsBelow f k T) {i b : Nat} (hi : i < parNumBlocks k) (hb : b < T) :
    parHists f k T (i * T + b) = blkCnt f k i b := by
  unfold parHists
  suffices h : ∀ Bn, i < Bn →
      ((List.range Bn).foldl (histBlock f k T) (fun _ => 0)) (i * T + b) =
        blkCnt f k i b from h _ hi
  intro Bn
  induction Bn with
  | zero => omega
  | succ Bn ih =>
    intro hiB
    rw [List.range_succ, List.foldl_append, List.foldl_cons, List.foldl_nil]
    rcases Nat.lt_or_ge i Bn with hlt | hge
    · have hout : ∀ b', b' < T → i * T + b ≠ Bn * T + b' := by
        intro b' hb' he
        have h1 : (i + 1) * T ≤ Bn * T := Nat.mul_le_mul_right T (by omega)
        have h2 : i * T + T ≤ Bn * T := by
          calc i * T + T = (i + 1) * T := by ring
          _ ≤ Bn * T := h1
        omega
      rw [histBlock_out hD hout, ih hlt]
    · have hieq : i = Bn := by omega
      subst hieq
      rw [histBlock_at hb]

/-- Items of blocks `< i` destined for slot `b`. -/
def partItems (f : Nat → Option (Nat × Nat)) (k i b : Nat) : List Nat :=
  (List.range i).flatMap (fun i' => blkItems f k i' b)

/-- Insertion offset of block `i` within slot `b`'s grown region. -/
def offCnt (f : Nat → Option (Nat × Nat)) (k b i : Nat) : Nat :=
  ∑ i' ∈ Finset.range i, blkCnt f k i' b

/-- Total number of batch items destined for slot `b`. -/
def totCnt (f : Nat → Option (Nat × Nat)) (k b : Nat) : Nat :=
  ∑ i ∈ Finset.range (parNumBlocks k), blkCnt f k i b

theorem partItems_succ (f : Nat → Option (Nat × Nat)) (k i b : Nat) :
    partItems f k (i + 1) b = partItems f k i b ++ blkItems f k i b := by
  unfold partItems
  rw [List.range_succ, List.flatMap_append, List.flatMap_singleton]

theorem partItems_full (f : Nat → Option (Nat × Nat)) (k b : Nat) :
    partItems f k (parNumBlocks k) b = itemsFor f k b :=
  (itemsFor_blocks f k b).symm

theorem partItems_length (f : Nat → Option (Nat × Nat)) (k i b : Nat) :
    (partItems f k i b).length = offCnt f k b i := by
  induction i with
  | zero => rfl
  | succ i ih =>
    rw [partItems_succ, List.length_append, ih]
    unfold offCnt
    rw [Finset.sum_range_succ]
    rfl

theorem totCnt_eq_length (f : Nat → Option (Nat × Nat)) (k b : Nat) :
    totCnt f k b = (itemsFor f k b).length := by
  rw [← partItems_full f k b, partItems_length]
  rfl

theorem parGet_eq {f : Nat → Option (Nat × Nat)} {k T : Nat}
    (hD : DestsBelow f k T) {b i : Nat} (hb : b < T) (hi : i < parNumBlocks k) :
    parGet f k T (b * parNumBlocks k + i) = blkCnt f k i b := by
  unfold parGet
  have hB : 0 < parNumBlocks k := parNumBlocks_pos k
  have h1 : (b * parNumBlocks k + i) % parNumBlocks k = i := by
    rw [Nat.mul_comm b (parNumBlocks k), Nat.mul_add_mod, Nat.mod_eq_of_lt hi]
  have h2 : (b * parNumBlocks k + i) / parNumBlocks k = b := by
    rw [Nat.mul_comm b (parNumBlocks k), Nat.mul_add_div hB,
      Nat.div_eq_of_lt hi, Nat.add_zero]
  rw [h1, h2]
  exact parHists_at hD hi hb

theorem parOuts_block_sum {f : Nat → Option (Nat × Nat)} {k T : Nat}
    (hD : DestsBelow f k T) {b : Nat} (hb : b < T) {i : Nat}
    (hi : i ≤ parNumBlocks k) :
    parOuts f k T (b * parNumBlocks k + i) =
      parOuts f k T (b * parNumBlocks k) + offCnt f k b i := by
  induction i with
  | zero => rfl
  | succ i ih =>
    have hi' : i < parNumBlocks k := by omega
    have heq : b * parNumBlocks k + (i + 1) = (b * parNumBlocks k + i) + 1 := by omega
    rw [heq]
    unfold parOuts
    rw [Finset.sum_range_succ]
    have ih' := ih (by omega)
    unfold parOuts at ih'
    rw [ih', parGet_eq hD hb hi']
    unfold offCnt
    rw [Finset.sum_range_succ]
    omega

theorem parNumInc_eq {f : Nat → Option (Nat × Nat)} {k T : Nat}
    (hD : DestsBelow f k T) {b : Nat} (hb : b < T) :
    parNumInc f k T b = totCnt f k b := by
  unfold parNumInc
  have h1 : (b + 1) * parNumBlocks k = b * parNumBlocks k + parNumBlocks k := by
    ring
  rw [h1, parOuts_block_sum hD hb (Nat.le_refl _)]
  have : offCnt f k b (parNumBlocks k) = totCnt f k b := rfl
  omega

/-! Per-slot folds for the resize (step 3) and commit (step 6) phases. -/

theorem foldl_slots {G : Nat → DynArr → DynArr} {c : Nat → Nat} {s : Buckets}
    {t : Nat} (ht : t ≤ s.bkts.length) :
    (List.range t).foldl
      (fun st i =>
        { setSlot st i (G i (getSlot st i)) with num_elms := st.num_elms + c i }) s =
    { s with
        bkts := (List.range s.bkts.length).map
          (fun b => if b < t then G b (getSlot s b) else getSlot s b),
        num_elms := s.num_elms + ∑ i ∈ Finset.range t, c i } := by
  induction t with
  | zero =>
    simp only [List.range_zero, List.foldl_nil, Finset.range_zero,
      Finset.sum_empty, Nat.add_zero]
    have : (List.range s.bkts.length).map
        (fun b => if b < 0 then G b (getSlot s b) else getSlot s b) =
        (List.range s.bkts.length).map (fun b => getSlot s b) := by
      apply List.map_congr_left
      intro b _
      simp
    rw [this, map_getSlot_range]
  | succ t ih =>
    have ht' : t ≤ s.bkts.length := by omega
    rw [List.range_succ, List.foldl_append, List.foldl_cons, List.foldl_nil, ih ht']
    have hget : getSlot { s with
        bkts := (List.range s.bkts.length).map
          (fun b => if b < t then G b (getSlot s b) else getSlot s b),
        num_elms := s.num_elms + ∑ i ∈ Finset.range t, c i } t = getSlot s t := by
      have hlen : t < ((List.range s.bkts.length).map
          (fun b => if b < t then G b (getSlot s b) else getSlot s b)).length := by
        simp only [List.length_map, List.length_range]
        omega
      show ((List.range s.bkts.length).map
        (fun b => if b < t then G b (getSlot s b) else getSlot s b)).getD t ⟨[], 0⟩ = _
      rw [List.getD_eq_getElem?_getD, List.getElem?_eq_getElem hlen]
      simp only [List.getElem_map, List.getElem_range]
      rw [if_neg (by omega)]
      rfl
    refine bucketsExt rfl rfl rfl rfl rfl rfl rfl rfl ?_ rfl rfl ?_
    · show (s.num_elms + ∑ i ∈ Finset.range t, c i) + c t =
        s.num_elms + ∑ i ∈ Finset.range (t + 1), c i
      rw [Finset.sum_range_succ]
      omega
    · show ((List.range s.bkts.length).map
          (fun b => if b < t then G b (getSlot s b) else getSlot s b)).set t
          (G t (getSlot { s with
            bkts := (List.range s.bkts.length).map
              (fun b => if b < t then G b (getSlot s b) else getSlot s b),
            num_elms := s.num_elms + ∑ i ∈ Finset.range t, c i } t)) =
        (List.range s.bkts.length).map
          (fun b => if b < t + 1 then G b (getSlot s b) else getSlot s b)
      rw [hget]
      apply List.ext_getElem?
      intro i
      rw [List.getElem?_set]
      rcases Nat.lt_or_ge i s.bkts.length with hi | hi
      · rw [List.getElem?_eq_getElem (by simpa using hi),
          List.getElem?_eq_getElem (by simpa using hi)]
        simp only [List.getElem_map, List.getElem_range, List.length_map,
          List.length_range, Option.some_inj]
        by_cases hti : t = i
        · subst hti
          rw [if_pos rfl, if_pos (by omega), if_pos (by omega)]
        · rw [if_neg hti]
          by_cases hit : i < t
          · rw [if_pos hit, if_pos (by omega)]
          · rw [if_neg hit, if_neg (by omega)]
      · rw [if_neg (by
            intro he
            subst he
            omega),
          List.getElem?_eq_none (by simpa using hi),
          List.getElem?_eq_none (by simpa using hi)]

theorem foldl_slots_nonum {G : Nat → DynArr → DynArr} {s : Buckets}
    {t : Nat} (ht : t ≤ s.bkts.length) :
    (List.range t).foldl (fun st i => setSlot st i (G i (getSlot st i))) s =
    { s with
        bkts := (List.range s.bkts.length).map
          (fun b => if b < t then G b (getSlot s b) else getSlot s b) } := by
  have h := foldl_slots (G := G) (c := fun _ => 0) (s := s) (t := t) ht
  have hfe : (fun (st : Buckets) (i : Nat) =>
      { setSlot st i (G i (getSlot st i)) with num_elms := st.num_elms + 0 }) =
      (fun (st : Buckets) (i : Nat) => setSlot st i (G i (getSlot st i))) := by
    funext st i
    simp [setSlot]
  rw [hfe] at h
  rw [h]
  have : (∑ _i ∈ Finset.range t, 0) = 0 := by simp
  rw [this, Nat.add_zero]

/-! The rebase phase (step 4). -/

theorem rebaseRow_at {f : Nat → Option (Nat × Nat)} {k T : Nat} (h : Nat → Nat)
    {b j : Nat} (hj : j < parNumBlocks k) :
    rebaseRow f k T h b ((b * parNumBlocks k + j) * CACHE_LINE_S) =
      parOuts f k T (b * parNumBlocks k + j) -
        parOuts f k T (b * parNumBlocks k) := by
  unfold rebaseRow
  have := foldl_fnUpdate_writes
    (fun j => (b * parNumBlocks k + j) * CACHE_LINE_S)
    (fun j => parOuts f k T (b * parNumBlocks k + j) -
      parOuts f k T (b * parNumBlocks k))
    (List.range (parNumBlocks k)) h j
    (List.mem_range.mpr hj)
    (fun j' _ he => by
      dsimp only at he
      unfold CACHE_LINE_S at he
      omega)
  exact this

theorem rebaseRow_out {f : Nat → Option (Nat × Nat)} {k T : Nat} (h : Nat → Nat)
    {b c : Nat} (hc : ∀ j, j < parNumBlocks k →
      c ≠ (b * parNumBlocks k + j) * CACHE_LINE_S) :
    rebaseRow f k T h b c = h c := by
  unfold rebaseRow
  exact foldl_fnUpdate_out (fun j hj he =>
    hc j (List.mem_range.mp hj) he.symm)

theorem parRebase_at {f : Nat → Option (Nat × Nat)} {k T : Nat}
    (hD : DestsBelow f k T) {b i : Nat} (hb : b < T) (hi : i < parNumBlocks k) :
    parRebase f k T ((b * parNumBlocks k + i) * CACHE_LINE_S) =
      offCnt f k b i := by
  unfold parRebase
  suffices h : ∀ Tn, b < Tn →
      ((List.range Tn).foldl (rebaseRow f k T) (parHists f k T))
        ((b * parNumBlocks k + i) * CACHE_LINE_S) = offCnt f k b i from h _ hb
  intro Tn
  induction Tn with
  | zero => omega
  | succ Tn ih =>
    intro hbT
    rw [List.range_succ, List.foldl_append, List.foldl_cons, List.foldl_nil]
    rcases Nat.lt_or_ge b Tn with hlt | hge
    · have hout : ∀ j, j < parNumBlocks k →
          (b * parNumBlocks k + i) * CACHE_LINE_S ≠
            (Tn * parNumBlocks k + j) * CACHE_LINE_S := by
        intro j hjB he
        have h1 : (b + 1) * parNumBlocks k ≤ Tn * parNumBlocks k :=
          Nat.mul_le_mul_right _ (by omega)
        have h2 : b * parNumBlocks k + parNumBlocks k ≤ Tn * parNumBlocks k := by
          calc b * parNumBlocks k + parNumBlocks k
              = (b + 1) * parNumBlocks k := by ring
          _ ≤ Tn * parNumBlocks k := h1
        unfold CACHE_LINE_S at he
        omega
      rw [rebaseRow_out _ hout, ih hlt]
    · have hbeq : b = Tn := by omega
      subst hbeq
      rw [rebaseRow_at _ hi, parOuts_block_sum hD hb (by omega)]
      omega

/-! The scatter phase (step 5). -/

theorem listWrite_set {A l : List Nat} {p : Nat} (v : Nat)
    (h : p + l.length < A.length) :
    (listWrite A p l).set (p + l.length) v = listWrite A p (l ++ [v]) := by
  have h' : p + l.length ≤ A.length := by omega
  have h1 : p + (l ++ [v]).length ≤ A.length := by
    simp only [List.length_append, List.length_singleton]; omega
  have e1 : (l ++ [v]).length = l.length + 1 := by simp
  apply List.ext_getElem?
  intro i
  rw [List.getElem?_set, getElem?_listWrite h1, length_listWrite h']
  rcases Nat.lt_trichotomy i (p + l.length) with hi | hi | hi
  · rcases Nat.lt_or_ge i p with hip | hip
    · rw [if_neg (by omega), getElem?_listWrite h' i, if_pos hip, if_pos hip]
    · rw [if_neg (by omega), getElem?_listWrite h' i, if_neg (by omega),
        if_pos hi, if_neg (by omega), if_pos (by omega),
        List.getElem?_append, if_pos (by omega)]
  · rw [if_pos hi.symm, if_pos (by omega), if_neg (by omega), if_pos (by omega),
      List.getElem?_append_right (by omega)]
    subst hi
    simp
  · rw [if_neg (by omega), getElem?_listWrite h' i, if_neg (by omega),
      if_neg (by omega), if_neg (by omega), if_neg (by omega)]

theorem cursor_cell_inj {B b i' b2 i2 : Nat} (h1 : i' < B) (h2 : i2 < B)
    (he : (b * B + i') * CACHE_LINE_S = (b2 * B + i2) * CACHE_LINE_S) :
    b = b2 ∧ i' = i2 := by
  have hC : 0 < CACHE_LINE_S := by decide
  have he' : b * B + i' = b2 * B + i2 := Nat.eq_of_mul_eq_mul_right hC he
  rcases Nat.lt_trichotomy b b2 with h | h | h
  · exfalso
    have hm : (b + 1) * B ≤ b2 * B := Nat.mul_le_mul_right _ (by omega)
    have : b * B + B ≤ b2 * B := by
      calc b * B + B = (b + 1) * B := by ring
      _ ≤ b2 * B := hm
    omega
  · subst h
    omega
  · exfalso
    have hm : (b2 + 1) * B ≤ b * B := Nat.mul_le_mul_right _ (by omega)
    have : b2 * B + B ≤ b * B := by
      calc b2 * B + B = (b2 + 1) * B := by ring
      _ ≤ b * B := hm
    omega

/-- A slot mid-scatter: buffer grown by `tot`, `its` of the new items
already written past `size`, `size` still uncommitted. -/
def scatSlotState (a : DynArr) (tot : Nat) (its : List Nat) : DynArr :=
  { A := listWrite (a.A ++ List.replicate tot 0) a.size its, size := a.size }

/-- The bucket state mid-scatter, the written prefix of slot `b` being
`g b`. -/
def scatMid (f : Nat → Option (Nat × Nat)) (k T : Nat) (s : Buckets)
    (g : Nat → List Nat) : Buckets :=
  { s with
      bkts := (List.range s.bkts.length).map
        (fun b => scatSlotState (getSlot s b) (totCnt f k b) (g b)),
      num_elms := s.num_elms + ∑ b ∈ Finset.range T, parNumInc f k T b }

theorem scatMid_congr {f : Nat → Option (Nat × Nat)} {k T : Nat} {s : Buckets}
    {g g' : Nat → List Nat} (h : ∀ b, b < s.bkts.length → g b = g' b) :
    scatMid f k T s g = scatMid f k T s g' := by
  unfold scatMid
  refine bucketsExt rfl rfl rfl rfl rfl rfl rfl rfl rfl rfl rfl ?_
  apply List.map_congr_left
  intro b hb
  rw [h b (List.mem_range.mp hb)]

theorem getSlot_scatMid {f : Nat → Option (Nat × Nat)} {k T : Nat} {s : Buckets}
    {g : Nat → List Nat} {b : Nat} (hb : b < s.bkts.length) :
    getSlot (scatMid f k T s g) b =
      scatSlotState (getSlot s b) (totCnt f k b) (g b) := by
  unfold getSlot scatMid
  rw [List.getD_eq_getElem?_getD,
    List.getElem?_eq_getElem
      (by simp only [List.length_map, List.length_range]; exact hb)]
  simp only [List.getElem_map, List.getElem_range]
  rfl

theorem setSlot_scatMid {f : Nat → Option (Nat × Nat)} {k T : Nat} {s : Buckets}
    {g g' : Nat → List Nat} {b : Nat} (hb : b < s.bkts.length)
    (hother : ∀ b', b' ≠ b → g' b' = g b') :
    setSlot (scatMid f k T s g) b
      (scatSlotState (getSlot s b) (totCnt f k b) (g' b)) =
      scatMid f k T s g' := by
  unfold setSlot scatMid
  refine bucketsExt rfl rfl rfl rfl rfl rfl rfl rfl rfl rfl rfl ?_
  apply List.ext_getElem?
  intro i
  rw [List.getElem?_set]
  rcases Nat.lt_or_ge i s.bkts.length with hi | hi
  · rw [List.getElem?_eq_getElem (by simpa using hi),
      List.getElem?_eq_getElem (by simpa using hi)]
    simp only [List.getElem_map, List.getElem_range, List.length_map,
      List.length_range, Option.some_inj]
    by_cases hbi : b = i
    · subst hbi
      rw [if_pos rfl, if_pos (by omega)]
    · rw [if_neg hbi, hother i (fun he => hbi he.symm)]
  · rw [if_neg (fun he => by omega), List.getElem?_eq_none (by simpa using hi),
      List.getElem?_eq_none (by simpa using hi)]

/-- The items of the first `t` indices of block `i` destined for slot
`b`. -/
def blkPartial (f : Nat → Option (Nat × Nat)) (k i t b : Nat) : List Nat :=
  (List.range' (i * parBlockSize k) t).filterMap (selFor f b)

theorem blkPartial_zero (f : Nat → Option (Nat × Nat)) (k i b : Nat) :
    blkPartial f k i 0 b = [] := rfl

theorem blkPartial_full (f : Nat → Option (Nat × Nat)) (k i b : Nat) :
    blkPartial f k i
      (min (i * parBlockSize k + parBlockSize k) k - i * parBlockSize k) b =
      blkItems f k i b := rfl

theorem blkPartial_succ (f : Nat → Option (Nat × Nat)) (k i t b : Nat) :
    blkPartial f k i (t + 1) b =
      blkPartial f k i t b ++
        (selFor f b (i * parBlockSize k + t)).toList := by
  unfold blkPartial
  rw [List.range'_1_concat, List.filterMap_append]
  congr 1

theorem selFor_none_of_fnone {f : Nat → Option (Nat × Nat)} {j : Nat}
    (hf : f j = none) (b : Nat) : selFor f b j = none := by
  unfold selFor hitOf
  rw [hf]

theorem selFor_none_of_null {f : Nat → Option (Nat × Nat)} {j v bd : Nat}
    (hf : f j = some (v, bd)) (hbd : bd = nullBkt) (b : Nat) :
    selFor f b j = none := by
  unfold selFor hitOf
  rw [hf]
  simp [hbd]

theorem selFor_some {f : Nat → Option (Nat × Nat)} {j v bd : Nat}
    (hf : f j = some (v, bd)) (hbd : bd ≠ nullBkt) :
    selFor f bd j = some v := by
  unfold selFor hitOf
  rw [hf]
  simp [hbd]

theorem selFor_none_of_ne {f : Nat → Option (Nat × Nat)} {j v bd b : Nat}
    (hf : f j = some (v, bd)) (hbd : bd ≠ nullBkt) (hne : bd ≠ b) :
    selFor f b j = none := by
  unfold selFor hitOf
  rw [hf]
  simp [hbd, hne]

theorem blkPartial_length_mono (f : Nat → Option (Nat × Nat)) (k i b : Nat)
    {t t' : Nat} (h : t ≤ t') :
    (blkPartial f k i t b).length ≤ (blkPartial f k i t' b).length := by
  have hsplit : List.range' (i * parBlockSize k) t' =
      List.range' (i * parBlockSize k) t ++
        List.range' (i * parBlockSize k + t) (t' - t) := by
    have := List.range'_append (i * parBlockSize k) t (t' - t) 1
    simp only [Nat.one_mul] at this
    rw [this]
    congr 1
    omega
  unfold blkPartial
  rw [hsplit, List.filterMap_append, List.length_append]
  omega

theorem offCnt_le_totCnt (f : Nat → Option (Nat × Nat)) (k b : Nat) {i : Nat}
    (hi : i ≤ parNumBlocks k) : offCnt f k b i ≤ totCnt f k b := by
  unfold offCnt totCnt
  exact Finset.sum_le_sum_of_subset (Finset.range_subset.mpr hi)

/-- The scatter invariant inside block `i`, after its first `t` items. -/
def ScatInner (f : Nat → Option (Nat × Nat)) (k T : Nat) (s : Buckets) (i t : Nat)
    (p : Buckets × (Nat → Nat)) : Prop :=
  p.1 = scatMid f k T s (fun b => partItems f k i b ++ blkPartial f k i t b) ∧
  (∀ b, b < T → p.2 ((b * parNumBlocks k + i) * CACHE_LINE_S) =
      offCnt f k b i + (blkPartial f k i t b).length) ∧
  (∀ b, b < T → ∀ i', i < i' → i' < parNumBlocks k →
      p.2 ((b * parNumBlocks k + i') * CACHE_LINE_S) = offCnt f k b i')

/-- The scatter invariant between blocks: blocks `< i` fully
scattered. -/
def ScatInv (f : Nat → Option (Nat × Nat)) (k T : Nat) (s : Buckets) (i : Nat)
    (p : Buckets × (Nat → Nat)) : Prop :=
  p.1 = scatMid f k T s (fun b => partItems f k i b) ∧
  (∀ b, b < T → ∀ i', i ≤ i' → i' < parNumBlocks k →
      p.2 ((b * parNumBlocks k + i') * CACHE_LINE_S) = offCnt f k b i')

theorem scat_inner_step {f : Nat → Option (Nat × Nat)} {k T : Nat} {s : Buckets}
    (hT : s.bkts.length = T) (hWF : SlotsWF s) (hD : DestsBelow f k T)
    {i t : Nat} (hi : i < parNumBlocks k)
    (hblk : t < min (i * parBlockSize k + parBlockSize k) k - i * parBlockSize k)
    {p : Buckets × (Nat → Nat)} (hp : ScatInner f k T s i t p) :
    ScatInner f k T s i (t + 1) (scatStep f k i p (i * parBlockSize k + t)) := by
  obtain ⟨h1, h2, h3⟩ := hp
  set j := i * parBlockSize k + t with hj
  have hjk : j < k := by
    have hm : min (i * parBlockSize k + parBlockSize k) k ≤ k := Nat.min_le_right _ _
    omega
  rcases hf : f j with _ | ⟨v, bd⟩
  · -- no item at index j
    have hstep : scatStep f k i p j = p := by
      unfold scatStep
      rw [hf]
    rw [hstep]
    have hsel : ∀ b, selFor f b j = none := selFor_none_of_fnone hf
    refine ⟨?_, ?_, h3⟩
    · rw [h1]
      apply scatMid_congr
      intro b _
      rw [blkPartial_succ, ← hj, hsel b]
      simp
    · intro b hb
      rw [h2 b hb, blkPartial_succ, ← hj, hsel b]
      simp
  · by_cases hbn : bd ≠ nullBkt
    · -- a real insertion into slot bd
      have hbT : bd < T := hD j hjk v bd hf hbn
      have hbL : bd < s.bkts.length := by omega
      set cell := (bd * parNumBlocks k + i) * CACHE_LINE_S with hcell
      have hstep : scatStep f k i p j =
          (setSlot p.1 bd (dynInsert (getSlot p.1 bd) v (p.2 cell)),
           fnUpdate p.2 cell (p.2 cell + 1)) := by
        unfold scatStep
        rw [hf]
        simp only [if_pos hbn]
      rw [hstep]
      set a := getSlot s bd with ha
      set l := partItems f k i bd ++ blkPartial f k i t bd with hl
      have hWFa : a.size ≤ a.A.length := by
        rw [ha, getSlot_eq_getElem hbL]
        exact hWF _ (List.getElem_mem hbL)
      have hind : p.2 cell = l.length := by
        rw [h2 bd hbT, hl, List.length_append, partItems_length]
      have hgs : getSlot p.1 bd = scatSlotState a (totCnt f k bd) l := by
        rw [h1]
        exact getSlot_scatMid hbL
      -- the next free position is strictly inside the grown buffer
      have hlen_lt : l.length < totCnt f k bd := by
        have hpl : (blkPartial f k i (t + 1) bd).length =
            (blkPartial f k i t bd).length + 1 := by
          rw [blkPartial_succ, ← hj, selFor_some hf hbn]
          simp
        have hmono : (blkPartial f k i (t + 1) bd).length ≤ blkCnt f k i bd := by
          have : (blkPartial f k i
              (min (i * parBlockSize k + parBlockSize k) k -
                i * parBlockSize k) bd).length = blkCnt f k i bd := by
            rw [blkPartial_full]
            rfl
          rw [← this]
          exact blkPartial_length_mono f k i bd (by omega)
        have hoff : offCnt f k bd i + blkCnt f k i bd = offCnt f k bd (i + 1) := by
          unfold offCnt
          rw [Finset.sum_range_succ]
        have htot : offCnt f k bd (i + 1) ≤ totCnt f k bd :=
          offCnt_le_totCnt f k bd (by omega)
        have hll : l.length = offCnt f k bd i + (blkPartial f k i t bd).length := by
          rw [hl, List.length_append, partItems_length]
        omega
      have hbase : a.size + l.length <
          (a.A ++ List.replicate (totCnt f k bd) 0).length := by
        simp only [List.length_append, List.length_replicate]
        omega
      have hins : dynInsert (getSlot p.1 bd) v (p.2 cell) =
          scatSlotState a (totCnt f k bd) (l ++ [v]) := by
        rw [hgs, hind]
        unfold dynInsert scatSlotState
        simp only
        rw [listWrite_set v hbase]
      have hgnew : ∀ b', b' ≠ bd →
          (partItems f k i b' ++ blkPartial f k i (t + 1) b') =
            partItems f k i b' ++ blkPartial f k i t b' := by
        intro b' hb'
        rw [blkPartial_succ, ← hj, selFor_none_of_ne hf hbn (fun he => hb' he.symm)]
        simp
      have hgbd : partItems f k i bd ++ blkPartial f k i (t + 1) bd = l ++ [v] := by
        rw [blkPartial_succ, ← hj, selFor_some hf hbn, hl]
        simp [List.append_assoc]
      refine ⟨?_, ?_, ?_⟩
      · rw [hins, h1]
        show setSlot (scatMid f k T s _) bd _ = _
        rw [← hgbd]
        exact setSlot_scatMid hbL (fun b' hb' => hgnew b' hb')
      · intro b hb
        by_cases hbbd : b = bd
        · subst hbbd
          show fnUpdate p.2 cell (p.2 cell + 1) cell = _
          rw [fnUpdate_same, hind]
          have : (blkPartial f k i (t + 1) b).length =
              (blkPartial f k i t b).length + 1 := by
            rw [blkPartial_succ, ← hj, selFor_some hf hbn]
            simp
          rw [this, hl, List.length_append, partItems_length]
          omega
        · show fnUpdate p.2 cell (p.2 cell + 1)
            ((b * parNumBlocks k + i) * CACHE_LINE_S) = _
          rw [fnUpdate_ne _ _ _ (fun he => by
            rcases cursor_cell_inj hi hi (hcell ▸ he) with ⟨he1, _⟩
            exact hbbd he1), h2 b hb]
          congr 2
          rw [blkPartial_succ, ← hj, selFor_none_of_ne hf hbn (fun he => hbbd he.symm)]
          simp
      · intro b hb i' hii' hi'B
        show fnUpdate p.2 cell (p.2 cell + 1)
          ((b * parNumBlocks k + i') * CACHE_LINE_S) = _
        rw [fnUpdate_ne _ _ _ (fun he => by
          rcases cursor_cell_inj hi'B hi (hcell ▸ he) with ⟨_, he2⟩
          omega)]
        exact h3 b hb i' hii' hi'B
    · -- destination NULL_BKT: dropped
      have hstep : scatStep f k i p j = p := by
        unfold scatStep
        rw [hf]
        simp only [if_neg hbn]
      rw [hstep]
      simp only [ne_eq, not_not] at hbn
      have hsel : ∀ b, selFor f b j = none := selFor_none_of_null hf hbn
      refine ⟨?_, ?_, h3⟩
      · rw [h1]
        apply scatMid_congr
        intro b _
        rw [blkPartial_succ, ← hj, hsel b]
        simp
      · intro b hb
        rw [h2 b hb, blkPartial_succ, ← hj, hsel b]
        simp

theorem scat_inner_fold {f : Nat → Option (Nat × Nat)} {k T : Nat} {s : Buckets}
    (hT : s.bkts.length = T) (hWF : SlotsWF s) (hD : DestsBelow f k T)
    {i : Nat} (hi : i < parNumBlocks k) (t : Nat)
    (ht : t ≤ min (i * parBlockSize k + parBlockSize k) k - i * parBlockSize k)
    {p : Buckets × (Nat → Nat)} (hp : ScatInner f k T s i 0 p) :
    ScatInner f k T s i t
      ((List.range' (i * parBlockSize k) t).foldl (scatStep f k i) p) := by
  induction t with
  | zero => exact hp
  | succ t ih =>
    rw [List.range'_1_concat, List.foldl_append, List.foldl_cons, List.foldl_nil]
    exact scat_inner_step hT hWF hD hi (by omega) (ih (by omega))

theorem scatBlock_inv {f : Nat → Option (Nat × Nat)} {k T : Nat} {s : Buckets}
    (hT : s.bkts.length = T) (hWF : SlotsWF s) (hD : DestsBelow f k T)
    {i : Nat} (hi : i < parNumBlocks k) {p : Buckets × (Nat → Nat)}
    (hp : ScatInv f k T s i p) :
    ScatInv f k T s (i + 1) (scatBlock f k p i) := by
  obtain ⟨h1, h2⟩ := hp
  have h0 : ScatInner f k T s i 0 p := by
    refine ⟨?_, ?_, ?_⟩
    · rw [h1]
      apply scatMid_congr
      intro b _
      rw [blkPartial_zero]
      simp
    · intro b hb
      rw [h2 b hb i (Nat.le_refl i) hi, blkPartial_zero]
      rfl
    · intro b hb i' hii' hi'B
      exact h2 b hb i' (by omega) hi'B
  have hfold := scat_inner_fold hT hWF hD hi
    (min (i * parBlockSize k + parBlockSize k) k - i * parBlockSize k)
    (Nat.le_refl _) h0
  obtain ⟨g1, g2, g3⟩ := hfold
  refine ⟨?_, ?_⟩
  · show (scatBlock f k p i).1 = _
    unfold scatBlock blkRange
    rw [g1]
    apply scatMid_congr
    intro b _
    rw [blkPartial_full, ← partItems_succ]
  · intro b hb i' hii' hi'B
    show (scatBlock f k p i).2 _ = _
    unfold scatBlock blkRange
    exact g3 b hb i' (by omega) hi'B

theorem parScatter_inv {f : Nat → Option (Nat × Nat)} {k T : Nat} {s : Buckets}
    (hT : s.bkts.length = T) (hWF : SlotsWF s) (hD : DestsBelow f k T)
    {p0 : Buckets × (Nat → Nat)} (hp : ScatInv f k T s 0 p0) :
    ScatInv f k T s (parNumBlocks k) (parScatter f k T p0) := by
  unfold parScatter
  suffices h : ∀ Bn, Bn ≤ parNumBlocks k →
      ScatInv f k T s Bn ((List.range Bn).foldl (scatBlock f k) p0) from
    h _ (Nat.le_refl _)
  intro Bn
  induction Bn with
  | zero => intro _; exact hp
  | succ Bn ih =>
    intro hBn
    rw [List.range_succ, List.foldl_append, List.foldl_cons, List.foldl_nil]
    exact scatBlock_inv hT hWF hD (by omega) (ih (by omega))

theorem sum_itemsFor_length {f : Nat → Option (Nat × Nat)} {T : Nat} (k : Nat)
    (hD : DestsBelow f k T) :
    ∑ b ∈ Finset.range T, (itemsFor f k b).length = hitCount f k := by
  induction k with
  | zero =>
    have h0 : hitCount f 0 = 0 := rfl
    rw [h0]
    apply Finset.sum_eq_zero
    intro b _
    rfl
  | succ k ih =>
    have hDk : DestsBelow f k T := fun j hj => hD j (by omega)
    rw [hitCount_succ, ← ih hDk]
    have hsplit : ∀ b, (itemsFor f (k + 1) b).length =
        (itemsFor f k b).length +
          (match hitOf f k with
           | some (_, b') => if b' = b then 1 else 0
           | none => 0) := by
      intro b
      rw [itemsFor_succ, List.length_append]
      congr 1
      rcases h : hitOf f k with _ | ⟨v, b'⟩
      · rfl
      · by_cases hb : b' = b <;> simp [hb]
    calc (∑ b ∈ Finset.range T, (itemsFor f (k + 1) b).length)
        = ∑ b ∈ Finset.range T, ((itemsFor f k b).length +
            (match hitOf f k with
             | some (_, b') => if b' = b then 1 else 0
             | none => 0)) := Finset.sum_congr rfl (fun b _ => hsplit b)
      _ = (∑ b ∈ Finset.range T, (itemsFor f k b).length) +
            ∑ b ∈ Finset.range T,
              (match hitOf f k with
               | some (_, b') => if b' = b then 1 else 0
               | none => 0) := Finset.sum_add_distrib
      _ = (∑ b ∈ Finset.range T, (itemsFor f k b).length) +
            (if (hitOf f k).isSome then 1 else 0) := by
        congr 1
        rcases h : hitOf f k with _ | ⟨v, b'⟩
        · simp
        · have hfk : f k = some (v, b') ∧ b' ≠ nullBkt := by
            unfold hitOf at h
            rcases hf : f k with _ | ⟨v2, b2⟩
            · rw [hf] at h; simp at h
            · rw [hf] at h
              simp only at h
              by_cases hbn : b2 ≠ nullBkt
              · rw [if_pos hbn] at h
                injection h with h
                injection h with e1 e2
                subst e1; subst e2
                exact ⟨rfl, hbn⟩
              · simp [hbn] at h
          have hbT : b' < T := hD k (by omega) v b' hfk.1 hfk.2
          rw [Finset.sum_congr rfl
            (fun b (_ : b ∈ Finset.range T) => by
              show (if b' = b then 1 else 0) = if b = b' then 1 else 0
              by_cases hbb : b = b' <;> simp [hbb, Ne.symm])]
          rw [Finset.sum_ite_eq' (Finset.range T) b' (fun _ => 1)]
          simp [Finset.mem_range.mpr hbT]

theorem length_scatMid_bkts (f : Nat → Option (Nat × Nat)) (k T : Nat)
    (s : Buckets) (g : Nat → List Nat) :
    (scatMid f k T s g).bkts.length = s.bkts.length := by
  simp [scatMid]

theorem parResize_eq_scatMid {f : Nat → Option (Nat × Nat)} {k : Nat} {s : Buckets}
    (hT : s.bkts.length = s.total_buckets)
    (hD : DestsBelow f k s.total_buckets) :
    parResize f k s.total_buckets s =
      scatMid f k s.total_buckets s (fun b => partItems f k 0 b) := by
  have h := foldl_slots
    (G := fun i a => dynResize a (parNumInc f k s.total_buckets i))
    (c := fun i => parNumInc f k s.total_buckets i) (s := s)
    (t := s.total_buckets) (by omega)
  unfold parResize
  rw [h]
  unfold scatMid
  refine bucketsExt rfl rfl rfl rfl rfl rfl rfl rfl rfl rfl rfl ?_
  apply List.map_congr_left
  intro b hb
  have hbL : b < s.bkts.length := List.mem_range.mp hb
  rw [if_pos (by omega)]
  have htot : parNumInc f k s.total_buckets b = totCnt f k b :=
    parNumInc_eq hD (by omega)
  show dynResize (getSlot s b) (parNumInc f k s.total_buckets b) =
    scatSlotState (getSlot s b) (totCnt f k b) (partItems f k 0 b)
  rw [htot]
  unfold dynResize scatSlotState
  have h0 : partItems f k 0 b = [] := rfl
  rw [h0, listWrite_nil]

theorem parCommit_final {f : Nat → Option (Nat × Nat)} {k : Nat} {s : Buckets}
    (hT : s.bkts.length = s.total_buckets)
    (hD : DestsBelow f k s.total_buckets) :
    parCommit f k s.total_buckets
      (scatMid f k s.total_buckets s (fun b => itemsFor f k b)) =
    { s with
        bkts := (List.range s.bkts.length).map (fun b => refSlot f k b (getSlot s b)),
        num_elms := s.num_elms + hitCount f k } := by
  have hlen : (scatMid f k s.total_buckets s (fun b => itemsFor f k b)).bkts.length =
      s.bkts.length := length_scatMid_bkts _ _ _ _ _
  have h := foldl_slots_nonum
    (G := fun i a => { a with size := a.size + parNumInc f k s.total_buckets i })
    (s := scatMid f k s.total_buckets s (fun b => itemsFor f k b))
    (t := s.total_buckets) (by omega)
  unfold parCommit
  rw [h]
  have hnum : (∑ b ∈ Finset.range s.total_buckets, parNumInc f k s.total_buckets b) =
      hitCount f k := by
    rw [Finset.sum_congr rfl (fun b hb =>
      parNumInc_eq hD (Finset.mem_range.mp hb))]
    rw [Finset.sum_congr rfl (fun b _ => totCnt_eq_length f k b)]
    exact sum_itemsFor_length k hD
  refine bucketsExt rfl rfl rfl rfl rfl rfl rfl rfl ?_ rfl rfl ?_
  · show s.num_elms + ∑ b ∈ Finset.range s.total_buckets,
      parNumInc f k s.total_buckets b = s.num_elms + hitCount f k
    rw [hnum]
  · show (List.range (scatMid f k s.total_buckets s
        (fun b => itemsFor f k b)).bkts.length).map _ = _
    rw [hlen]
    apply List.map_congr_left
    intro b hb
    have hbL : b < s.bkts.length := List.mem_range.mp hb
    rw [if_pos (by omega)]
    have htot : parNumInc f k s.total_buckets b = totCnt f k b :=
      parNumInc_eq hD (by omega)
    show ({ getSlot (scatMid f k s.total_buckets s (fun b => itemsFor f k b)) b with
        size := (getSlot (scatMid f k s.total_buckets s (fun b => itemsFor f k b)) b).size +
          parNumInc f k s.total_buckets b } : DynArr) = refSlot f k b (getSlot s b)
    rw [getSlot_scatMid hbL, htot]
    unfold scatSlotState refSlot
    rw [totCnt_eq_length]

theorem update_buckets_par_eq_updRef (f : Nat → Option (Nat × Nat)) (k : Nat)
    (s : Buckets) (hT : s.bkts.length = s.total_buckets) (hWF : SlotsWF s)
    (hD : DestsBelow f k s.total_buckets) :
    update_buckets_par f k s = updRef f k s := by
  have hinv0 : ScatInv f k s.total_buckets s 0
      (parResize f k s.total_buckets s, parRebase f k s.total_buckets) := by
    refine ⟨parResize_eq_scatMid hT hD, ?_⟩
    intro b hb i' _ hi'B
    exact parRebase_at hD hb hi'B
  have hscat := parScatter_inv hT hWF hD hinv0
  obtain ⟨hs1, _⟩ := hscat
  have hs1' : (parScatter f k s.total_buckets
      (parResize f k s.total_buckets s, parRebase f k s.total_buckets)).1 =
      scatMid f k s.total_buckets s (fun b => itemsFor f k b) := by
    rw [hs1]
    apply scatMid_congr
    intro b _
    rw [partItems_full]
  show (parCommit f k s.total_buckets
      (parScatter f k s.total_buckets
        (parResize f k s.total_buckets s, parRebase f k s.total_buckets)).1,
    _) = updRef f k s
  rw [hs1', parCommit_final hT hD]
  refine Prod.ext ?_ ?_
  · rfl
  · show ({ s with
        bkts := (List.range s.bkts.length).map
          (fun b => refSlot f k b (getSlot s b)),
        num_elms := s.num_elms + hitCount f k } : Buckets).num_elms -
      s.num_elms = hitCount f k
    show s.num_elms + hitCount f k - s.num_elms = hitCount f k
    omega

/-- Both paths of `update_buckets` compute `updRef` (hence each
other). -/
theorem update_buckets_eq_updRef (nw : Nat) (f : Nat → Option (Nat × Nat)) (k : Nat)
    (s : Buckets) (hT : s.bkts.length = s.total_buckets) (hWF : SlotsWF s)
    (hD : DestsBelow f k s.total_buckets) :
    update_buckets nw f k s = updRef f k s := by
  unfold update_buckets
  by_cases h : k < kSequentialForThreshold ∨ nw = 1
  · rw [if_pos h]
    exact update_buckets_seq_eq_updRef f k s hWF (hT ▸ hD)
  · rw [if_neg h]
    exact update_buckets_par_eq_updRef f k s hT hWF hD

theorem updRef_slotsWF {f : Nat → Option (Nat × Nat)} {k : Nat} {s : Buckets}
    (hWF : SlotsWF s) : SlotsWF (updRef f k s).1 := by
  intro a ha
  simp only [updRef, List.mem_map] at ha
  obtain ⟨b, hb, rfl⟩ := ha
  have hbL : b < s.bkts.length := List.mem_range.mp hb
  have hWFb : (getSlot s b).size ≤ (getSlot s b).A.length := by
    rw [getSlot_eq_getElem hbL]
    exact hWF _ (List.getElem_mem hbL)
  unfold refSlot
  simp only
  rw [length_listWrite (by
    simp only [List.length_append, List.length_replicate]
    omega)]
  simp only [List.length_append, List.length_replicate]
  omega

/-- A decidable reformulation of `DestsBelow`, for concrete batches. -/
theorem destsBelow_iff (f : Nat → Option (Nat × Nat)) (k L : Nat) :
    DestsBelow f k L ↔ ∀ j, j < k →
      ((f j).map (fun p => decide (p.2 = nullBkt ∨ p.2 < L))).getD true = true := by
  constructor
  · intro hD j hj
    rcases hf : f j with _ | ⟨v, b⟩
    · rfl
    · simp only [Option.map_some', Option.getD_some, decide_eq_true_eq]
      by_cases hb : b = nullBkt
      · exact Or.inl hb
      · exact Or.inr (hD j hj v b hf hb)
  · intro h j hj v b hf hbn
    have h2 := h j hj
    rw [hf] at h2
    simp only [Option.map_some', Option.getD_some, decide_eq_true_eq] at h2
    rcases h2 with h1 | h1
    · exact absurd h1 hbn
    · exact h1

/-! ### Claim theorems -/

/-! ### The `next_bucket` state machine -/

/-- The fields `update_buckets` never writes (everything except `bkts`
and `num_elms`). -/
def shape (s : Buckets) :
    Nat × (Nat → Nat) × BucketOrder × Nat × Nat × Nat × Nat × Nat × Bool × Bool :=
  (s.n, s.d, s.order, s.open_buckets, s.total_buckets, s.cur_bkt, s.max_bkt,
   s.cur_range, s.allocated, s.aborted)

theorem shape_foldl {α : Type} {step : Buckets → α → Buckets}
    (hstep : ∀ st i, shape (step st i) = shape st) (l : List α) (s : Buckets) :
    shape (l.foldl step s) = shape s := by
  induction l generalizing s with
  | nil => rfl
  | cons x l ih => rw [List.foldl_cons, ih, hstep]

theorem shape_seqStep (f : Nat → Option (Nat × Nat)) (st : Buckets) (i : Nat) :
    shape (seqStep f st i) = shape st := by
  unfold seqStep
  rcases f i with _ | ⟨v, b⟩
  · rfl
  · dsimp only
    by_cases hb : b ≠ nullBkt
    · rw [if_pos hb]
      rfl
    · rw [if_neg hb]

theorem shape_update_buckets_seq (f : Nat → Option (Nat × Nat)) (k : Nat)
    (s : Buckets) : shape (update_buckets_seq f k s).1 = shape s := by
  rw [update_buckets_seq_as_fold]
  exact shape_foldl (shape_seqStep f) _ s

theorem shape_parResize (f : Nat → Option (Nat × Nat)) (k T : Nat) (s : Buckets) :
    shape (parResize f k T s) = shape s := by
  unfold parResize
  refine shape_foldl ?_ _ s
  intro st i
  rfl

theorem shape_scatStep (f : Nat → Option (Nat × Nat)) (k i : Nat)
    (p : Buckets × (Nat → Nat)) (j : Nat) :
    shape (scatStep f k i p j).1 = shape p.1 := by
  unfold scatStep
  rcases f j with _ | ⟨v, b⟩
  · rfl
  · dsimp only
    by_cases hb : b ≠ nullBkt
    · rw [if_pos hb]
      rfl
    · rw [if_neg hb]

theorem shape_parScatter (f : Nat → Option (Nat × Nat)) (k T : Nat)
    (p0 : Buckets × (Nat → Nat)) :
    shape (parScatter f k T p0).1 = shape p0.1 := by
  unfold parScatter
  suffices h : ∀ (l : List Nat) (p : Buckets × (Nat → Nat)),
      shape (l.foldl (scatBlock f k) p).1 = shape p.1 from h _ p0
  intro l
  induction l with
  | nil => intro p; rfl
  | cons x l ih =>
    intro p
    rw [List.foldl_cons, ih]
    unfold scatBlock
    suffices h2 : ∀ (l2 : List Nat) (q : Buckets × (Nat → Nat)),
        shape (l2.foldl (scatStep f k x) q).1 = shape q.1 from h2 _ p
    intro l2
    induction l2 with
    | nil => intro q; rfl
    | cons y l2 ih2 =>
      intro q
      rw [List.foldl_cons, ih2, shape_scatStep]

theorem shape_parCommit (f : Nat → Option (Nat × Nat)) (k T : Nat) (s : Buckets) :
    shape (parCommit f k T s) = shape s := by
  unfold parCommit
  refine shape_foldl ?_ _ s
  intro st i
  rfl

theorem shape_update_buckets (nw : Nat) (f : Nat → Option (Nat × Nat)) (k : Nat)
    (s : Buckets) : shape (update_buckets nw f k s).1 = shape s := by
  unfold update_buckets
  by_cases h : k < kSequentialForThreshold ∨ nw = 1
  · rw [if_pos h]
    exact shape_update_buckets_seq f k s
  · rw [if_neg h]
    show shape (update_buckets_par f k s).1 = shape s
    unfold update_buckets_par
    rw [shape_parCommit, shape_parScatter, shape_parResize]

theorem d_update_buckets (nw : Nat) (f : Nat → Option (Nat × Nat)) (k : Nat)
    (s : Buckets) : (update_buckets nw f k s).1.d = s.d :=
  congrArg (fun t => t.2.1) (shape_update_buckets nw f k s)

/-- One internal advance inside `next_bucket`: a `_next_bucket` step, or
the discarding drain of a fully-stale slot (the `m == 0` tail call of
`get_cur_bucket`). -/
inductive NBStep (nw : Nat) : Buckets → Buckets → Prop where
  | advance (s : Buckets) (h1 : curBucketNonEmpty s = false) (h2 : 0 < s.num_elms) :
      NBStep nw s (next_bucket_step nw s)
  | stale (s : Buckets) (h1 : ¬(curBucketNonEmpty s = false ∧ 0 < s.num_elms))
      (h2 : ¬ s.num_elms = 0) (h3 : (drain s).1.identifiers = []) :
      NBStep nw s (drain s).2

/-- Reflexive–transitive closure of `NBStep`. -/
inductive NBSteps (nw : Nat) : Buckets → Buckets → Prop where
  | refl (s : Buckets) : NBSteps nw s s
  | tail {s t u : Buckets} : NBSteps nw s t → NBStep nw t u → NBSteps nw s u

theorem NBSteps.head {nw : Nat} {s t u : Buckets} (h1 : NBStep nw s t)
    (h2 : NBSteps nw t u) : NBSteps nw s u := by
  induction h2 with
  | refl => exact NBSteps.tail (NBSteps.refl s) h1
  | tail hst hstep ih => exact NBSteps.tail ih hstep

theorem d_unpack (nw : Nat) (s : Buckets) : (unpack nw s).d = s.d := by
  unfold unpack
  simp only [d_update_buckets]
  split <;> rfl

theorem d_next_bucket_step (nw : Nat) (s : Buckets) :
    (next_bucket_step nw s).d = s.d := by
  unfold next_bucket_step
  simp only
  split
  · exact d_unpack nw _
  · rfl

theorem NBStep_d {nw : Nat} {s t : Buckets} (h : NBStep nw s t) : t.d = s.d := by
  cases h with
  | advance h1 h2 => exact d_next_bucket_step nw s
  | stale h1 h2 h3 => rfl

theorem NBSteps_d {nw : Nat} {s t : Buckets} (h : NBSteps nw s t) : t.d = s.d := by
  induction h with
  | refl => rfl
  | tail hst hstep ih => rw [NBStep_d hstep, ih]

/-- Every non-sentinel return of `next_bucket` is the drain of a slot
reached by internal steps, and the drain kept at least one
identifier. -/
theorem next_bucket_emit_spec {nw fu : Nat} {s : Buckets} {b : Bucket} {s' : Buckets}
    (h : next_bucket nw fu s = some (b, s')) (hb : b.id ≠ nullBkt) :
    ∃ s₁, NBSteps nw s s₁ ∧
      ¬(curBucketNonEmpty s₁ = false ∧ 0 < s₁.num_elms) ∧ s₁.num_elms ≠ 0 ∧
      (drain s₁).1 = b ∧ (drain s₁).2 = s' ∧ b.identifiers ≠ [] := by
  induction fu generalizing s with
  | zero => cases h
  | succ fu ih =>
    unfold next_bucket at h
    by_cases h1 : curBucketNonEmpty s = false ∧ 0 < s.num_elms
    · rw [if_pos h1] at h
      obtain ⟨s₁, hsteps, hc⟩ := ih h
      exact ⟨s₁, hsteps.head (NBStep.advance s h1.1 h1.2), hc⟩
    · rw [if_neg h1] at h
      by_cases h2 : s.num_elms = 0
      · rw [if_pos h2] at h
        injection h with h
        injection h with hb' hs'
        rw [← hb'] at hb
        exact absurd rfl hb
      · rw [if_neg h2] at h
        simp only at h
        by_cases h3 : (drain s).1.identifiers = []
        · rw [if_pos h3] at h
          obtain ⟨s₁, hsteps, hc⟩ := ih h
          exact ⟨s₁, hsteps.head (NBStep.stale s h1 h2 h3), hc⟩
        · rw [if_neg h3] at h
          injection h with h
          injection h with hb' hs'
          exact ⟨s, NBSteps.refl s, h1, h2, hb', hs', hb' ▸ h3⟩

/-- Every sentinel return of `next_bucket` happens at a state with
`num_elms = 0` reached by internal steps, returns that state unchanged,
and carries the empty identifier set; dually, every returned bucket with
a non-empty identifier set is a genuine drain.  (`hid`: in degenerate
states the current bucket *number* of a drain could coincide with the
numeral `NULL_BKT`; the hypothesis rules that out for the drained
return.) -/
theorem next_bucket_sentinel_spec {nw fu : Nat} {s : Buckets} {b : Bucket}
    {s' : Buckets} (h : next_bucket nw fu s = some (b, s'))
    (hb : b.identifiers = []) :
    b = { id := nullBkt, num_filtered := 0, identifiers := [] } ∧
      s'.num_elms = 0 ∧ NBSteps nw s s' := by
  induction fu generalizing s with
  | zero => cases h
  | succ fu ih =>
    unfold next_bucket at h
    by_cases h1 : curBucketNonEmpty s = false ∧ 0 < s.num_elms
    · rw [if_pos h1] at h
      obtain ⟨hb', hnum, hsteps⟩ := ih h
      exact ⟨hb', hnum, hsteps.head (NBStep.advance s h1.1 h1.2)⟩
    · rw [if_neg h1] at h
      by_cases h2 : s.num_elms = 0
      · rw [if_pos h2] at h
        injection h with h
        injection h with hb' hs'
        subst hs'
        exact ⟨hb'.symm, h2, NBSteps.refl s⟩
      · rw [if_neg h2] at h
        simp only at h
        by_cases h3 : (drain s).1.identifiers = []
        · rw [if_pos h3] at h
          obtain ⟨hb', hnum, hsteps⟩ := ih h
          exact ⟨hb', hnum, hsteps.head (NBStep.stale s h1 h2 h3)⟩
        · rw [if_neg h3] at h
          injection h with h
          injection h with hb' hs'
          exact (h3 (by rw [show (drain s).1 = b from hb']; exact hb)).elim

/-- **C5.** For every update batch `F` (with destinations addressing the
materialized slots) and count `k`, the parallel blocked-counting-sort
path of `update_buckets` and the sequential path (the one taken when
`k < SEQ_THRESHOLD` or there is a single worker) insert the same
multiset of identifiers into each slot, leave the same final
`num_elms`, and return the same inserted count. -/
theorem C5_par_seq_equivalent (f : Nat → Option (Nat × Nat)) (k : Nat) (s : Buckets)
    (hT : s.bkts.length = s.total_buckets) (hWF : SlotsWF s)
    (hD : DestsBelow f k s.total_buckets) :
    (∀ b, Multiset.ofList (DynArr.content (getSlot (update_buckets_par f k s).1 b)) =
        Multiset.ofList (DynArr.content (getSlot (update_buckets_seq f k s).1 b))) ∧
    (update_buckets_par f k s).1.num_elms = (update_buckets_seq f k s).1.num_elms ∧
    (update_buckets_par f k s).2 = (update_buckets_seq f k s).2 := by
  rw [update_buckets_par_eq_updRef f k s hT hWF hD,
    update_buckets_seq_eq_updRef f k s hWF (hT ▸ hD)]
  exact ⟨fun b => rfl, rfl, rfl⟩

def c5s : Buckets :=
  { n := 4, d := fun _ => 0, order := .increasing, open_buckets := 2,
    total_buckets := 3, cur_bkt := 0, max_bkt := 3, cur_range := 0,
    num_elms := 0, allocated := true, aborted := false,
    bkts := List.replicate 3 ⟨[], 0⟩ }

def c5f : Nat → Option (Nat × Nat) := fun j =>
  if j = 0 then some (5, 1) else if j = 1 then none else some (j, 2)

theorem C5_par_seq_equivalent_witness :
    (c5s.bkts.length = c5s.total_buckets ∧ SlotsWF c5s ∧
      DestsBelow c5f 3 c5s.total_buckets) ∧
    ((∀ b, Multiset.ofList (DynArr.content (getSlot (update_buckets_par c5f 3 c5s).1 b)) =
        Multiset.ofList (DynArr.content (getSlot (update_buckets_seq c5f 3 c5s).1 b))) ∧
     (update_buckets_par c5f 3 c5s).1.num_elms =
        (update_buckets_seq c5f 3 c5s).1.num_elms ∧
     (update_buckets_par c5f 3 c5s).2 = (update_buckets_seq c5f 3 c5s).2) :=
  ⟨⟨by decide, by unfold SlotsWF; decide,
    (destsBelow_iff c5f 3 c5s.total_buckets).mpr (by decide)⟩,
   C5_par_seq_equivalent c5f 3 c5s (by decide) (by unfold SlotsWF; decide)
     ((destsBelow_iff c5f 3 c5s.total_buckets).mpr (by decide))⟩

/-- **C4.** `get_bucket prev next` returns `to_range next` exactly when
`to_range next ≠ NULL_BKT` and (`prev = NULL_BKT` or `to_range prev ≠
to_range next` or `to_range next = cur_bkt`), and `NULL_BKT` otherwise.
It is a pure function of the structure: in this embedding it takes the
state and returns only a bucket destination, so it can mutate nothing. -/
theorem C4_get_bucket_formula (s : Buckets) (prev next : Nat) :
    get_bucket s prev next =
      if to_range s next ≠ nullBkt ∧
          (prev = nullBkt ∨ to_range s prev ≠ to_range s next ∨
            to_range s next = s.cur_bkt)
      then to_range s next else nullBkt := rfl

/-- **C10 (amended).** Under INCREASING order, whenever `(cur_range + 1)
* open_buckets` does not exceed `NULL_BKT` **and `open_buckets ≠
NULL_BKT`**, `to_range NULL_BKT` evaluates to the overflow slot index
`open_buckets` rather than to `NULL_BKT`; consequently `get_bucket prev
NULL_BKT` returns the overflow slot — queuing the identifier into
overflow instead of dropping the update — whenever `prev = NULL_BKT`,
or `to_range prev ≠ open_buckets`, or `open_buckets = cur_bkt`. -/
theorem C10_amended (s : Buckets) (hord : s.order = .increasing)
    (hguard : (s.cur_range + 1) * s.open_buckets ≤ nullBkt)
    (hO : s.open_buckets ≠ nullBkt) :
    to_range s nullBkt = s.open_buckets ∧ to_range s nullBkt ≠ nullBkt ∧
    ∀ prev, (prev = nullBkt ∨ to_range s prev ≠ s.open_buckets ∨
        s.open_buckets = s.cur_bkt) →
      get_bucket s prev nullBkt = s.open_buckets := by
  have hmul : s.cur_range * s.open_buckets ≤ (s.cur_range + 1) * s.open_buckets :=
    Nat.mul_le_mul_right _ (by omega)
  have h1 : to_range s nullBkt = s.open_buckets := by
    unfold to_range
    rw [hord]
    rw [if_neg (by omega), if_neg (by omega)]
  refine ⟨h1, by rw [h1]; exact hO, ?_⟩
  intro prev hdisj
  unfold get_bucket
  simp only [h1]
  rw [if_pos ⟨hO, hdisj⟩]

def c10w : Buckets :=
  { n := 1, d := fun _ => 0, order := .increasing, open_buckets := 2,
    total_buckets := 3, cur_bkt := 0, max_bkt := 3, cur_range := 0,
    num_elms := 0, allocated := true, aborted := false,
    bkts := List.replicate 3 ⟨[], 0⟩ }

theorem C10_amended_witness :
    (c10w.order = .increasing ∧ (c10w.cur_range + 1) * c10w.open_buckets ≤ nullBkt ∧
      c10w.open_buckets ≠ nullBkt) ∧
    to_range c10w nullBkt = c10w.open_buckets :=
  ⟨⟨rfl, by decide, by decide⟩,
   (C10_amended c10w rfl (by decide) (by decide)).1⟩

/-- The pre-seed state the constructor builds before its
`update_buckets` call (the field initializers and initial range of
src/bucket.h lines 81–111). -/
def mkInit (n : Nat) (d : Nat → Nat) (ord : BucketOrder) (T : Nat) : Buckets :=
  { n := n, d := d, order := ord, open_buckets := T - 1, total_buckets := T,
    cur_bkt := 0, max_bkt := T,
    cur_range :=
      (match ord with
       | .increasing => reduceMin n d / (T - 1)
       | .decreasing => (reduceMax n d + (T - 1)) / (T - 1)),
    num_elms := 0, allocated := true, aborted := false,
    bkts := List.replicate T ⟨[], 0⟩ }

/-- The constructor's seeding batch `get_id_and_bkt` (src/bucket.h lines
115–121). -/
def seedBatch (d : Nat → Nat) (s0 : Buckets) : Nat → Option (Nat × Nat) :=
  fun i => some (i, if d i ≠ nullBkt then to_range s0 (d i) else d i)

theorem make_buckets_eq (nw n : Nat) (d : Nat → Nat) (ord : BucketOrder) (T : Nat) :
    make_buckets nw n d ord T =
      (update_buckets nw (seedBatch d (mkInit n d ord T)) n (mkInit n d ord T)).1 := rfl

/-- The `C10` boundary state: `total_buckets = NULL_BKT + 1 = 2^32`, so
`open_buckets = NULL_BKT` itself. -/
def c10s : Buckets := make_buckets 1 1 (fun _ => 0) .increasing (nullBkt + 1)

/-- **C10, counterexample.** With `total_buckets = 2^32` (so
`open_buckets = NULL_BKT`) and `cur_range = 0` as constructed, the
claim's guard `(cur_range + 1) * open_buckets ≤ NULL_BKT` holds, yet
`to_range NULL_BKT` evaluates to `NULL_BKT` itself (not to a usable
overflow index distinct from the sentinel), and `get_bucket NULL_BKT
NULL_BKT` returns `NULL_BKT`: the update is dropped, not queued into
overflow. -/
theorem C10_counterexample :
    c10s.order = .increasing ∧
    (c10s.cur_range + 1) * c10s.open_buckets ≤ nullBkt ∧
    to_range c10s nullBkt = nullBkt ∧
    get_bucket c10s nullBkt nullBkt = nullBkt := by
  have hsh : shape c10s = shape (mkInit 1 (fun _ => 0) .increasing (nullBkt + 1)) := by
    show shape (make_buckets 1 1 (fun _ => 0) .increasing (nullBkt + 1)) =
      shape (mkInit 1 (fun _ => 0) .increasing (nullBkt + 1))
    rw [make_buckets_eq 1 1 (fun _ => 0) .increasing (nullBkt + 1)]
    exact shape_update_buckets 1 _ 1 _
  have hord : c10s.order = .increasing := by
    have h := congrArg (fun t => t.2.2.1) hsh
    exact h
  have hcr : c10s.cur_range = 0 := by
    have h := congrArg (fun t => t.2.2.2.2.2.2.2.1) hsh
    exact h.trans (by decide)
  have hO : c10s.open_buckets = nullBkt := by
    have h := congrArg (fun t => t.2.2.2.1) hsh
    exact h.trans (by decide)
  have htr : to_range c10s nullBkt = nullBkt := by
    unfold to_range
    rw [hord, hcr, hO]
    rw [if_neg (by decide), if_neg (by decide)]
  refine ⟨hord, by rw [hcr, hO]; decide, htr, ?_⟩
  unfold get_bucket
  simp only [htr]
  rw [if_neg (by
    intro hco
    exact hco.1 rfl)]

/-! The C8 scenario: `n = 5`, `T = 3` (2 open buckets), INCREASING,
`D = [0,1,2,3,4]`. -/

def dC8 : Nat → Nat := fun i => [0, 1, 2, 3, 4].getD i nullBkt

def sC8 : Buckets := make_buckets 1 5 dC8 .increasing 3

def c8r1 := next_bucket 1 20 sC8
def c8s1 := (c8r1.map Prod.snd).getD sC8
def c8r2 := next_bucket 1 20 c8s1
def c8s2 := (c8r2.map Prod.snd).getD sC8
def c8r3 := next_bucket 1 20 c8s2
def c8s3 := (c8r3.map Prod.snd).getD sC8
def c8r4 := next_bucket 1 20 c8s3
def c8s4 := (c8r4.map Prod.snd).getD sC8
def c8r5 := next_bucket 1 20 c8s4
def c8s5 := (c8r5.map Prod.snd).getD sC8
def c8r6 := next_bucket 1 20 c8s5

/-- **C8.** With `n = 5`, `T = 3` (2 open buckets), INCREASING order and
`D = [0,1,2,3,4]`: the constructed state has `cur_range = 0`, the open
window covering bucket numbers `{0,1}` (`[cur_range*2, (cur_range+1)*2)`)
with slot contents `{0}` and `{1}`, and the overflow slot holding
`{2,3,4}`; successive `next_bucket` calls emit `(0,{0})`, `(1,{1})`,
`(2,{2})`, `(3,{3})`, `(4,{4})` in that order; the call emitting
`(2,{2})` has unpacked, advancing `cur_range` to 1 (window `{2,3}`,
overflow left holding `{4}`), the call emitting `(4,{4})` has unpacked
again to `cur_range = 2` (window `{4,5}`); the sixth call returns the
`NULL_BKT` sentinel with an empty identifier set. -/
theorem C8_overflow_unpack_scenario :
    sC8.cur_range = 0 ∧ sC8.open_buckets = 2 ∧
    (getSlot sC8 0).content = [0] ∧ (getSlot sC8 1).content = [1] ∧
    (getSlot sC8 2).content = [2, 3, 4] ∧
    (c8r1.map fun p => (p.1.id, p.1.identifiers)) = some (0, [0]) ∧
    (c8r2.map fun p => (p.1.id, p.1.identifiers)) = some (1, [1]) ∧
    (c8r3.map fun p => (p.1.id, p.1.identifiers)) = some (2, [2]) ∧
    c8s3.cur_range = 1 ∧ (getSlot c8s3 2).content = [4] ∧
    (c8r4.map fun p => (p.1.id, p.1.identifiers)) = some (3, [3]) ∧
    (c8r5.map fun p => (p.1.id, p.1.identifiers)) = some (4, [4]) ∧
    c8s5.cur_range = 2 ∧
    (c8r6.map fun p => (p.1.id, p.1.identifiers)) = some (nullBkt, []) := by
  decide

/-! The C2 counterexample run: the spec's own "priority change" scenario
(`n = 3`, `T = 4`, INCREASING, `D₀ = [0,1,2]`; after emitting bucket 0
the consumer moves identifier 1 to bucket 0 and routes the move through
`get_bucket`/`update_buckets`). -/

def dA0 : Nat → Nat := fun i => [0, 1, 2].getD i nullBkt
def dA1 : Nat → Nat := fun i => [0, 0, 2].getD i nullBkt
def sA0 : Buckets := make_buckets 1 3 dA0 .increasing 4
def a1 := next_bucket 1 20 sA0
def sA1 : Buckets := { (a1.map Prod.snd).getD sA0 with d := dA1 }
def gbA := get_bucket sA1 1 0
def sA2 := (update_buckets 1 (fun _ => some (1, gbA)) 1 sA1).1
def a2 := next_bucket 1 20 sA2

/-- **C2, counterexample.**  In a sequence of `next_bucket` calls with a
consumer `update_buckets` between them, bucket number 0 is emitted
twice: the first call emits `(0, {0})`; the consumer then maps
identifier 1 to bucket 0 and inserts it through
`get_bucket(1, 0) = slot 0` and `update_buckets`; the next call emits
`(0, {1})` — the emitted bucket-number sequence `0, 0` is not strictly
monotonic, and a bucket number emitted earlier is emitted again. -/
theorem C2_counterexample :
    (a1.map fun p => (p.1.id, p.1.identifiers)) = some (0, [0]) ∧
    gbA = 0 ∧
    (a2.map fun p => (p.1.id, p.1.identifiers)) = some (0, [1]) := by
  decide

/-! The C6 counterexample run: `n = 1`, `T = 3`, INCREASING,
`D₀ = [1]`.  After bucket 1 is emitted the consumer moves identifier 0
backwards to bucket 0 and routes the move through
`get_bucket`/`update_buckets`; the insertion lands in open slot 0,
*behind* the cursor (`cur_bkt = 1`), and the next `next_bucket` call
reaches `unpack` with `m = 0 ≠ num_elms = 1`. -/

def dB0 : Nat → Nat := fun i => [1].getD i nullBkt
def dB1 : Nat → Nat := fun i => [0].getD i nullBkt
def sB0 : Buckets := make_buckets 1 1 dB0 .increasing 3
def b1 := next_bucket 1 20 sB0
def sB1 : Buckets := { (b1.map Prod.snd).getD sB0 with d := dB1 }
def gbB := get_bucket sB1 1 0
def sB2 := (update_buckets 1 (fun _ => some (0, gbB)) 1 sB1).1
def b2 := next_bucket 1 20 sB2

/-- **C6, counterexample.**  The consumer routes its only priority
change through `get_bucket`/`update_buckets` (the claim's premise), yet
the next `next_bucket` call reaches `unpack` with overflow size
`m = 0 ≠ num_elms = 1` and the `assert(m == num_elms)` fires (modelled
by the `aborted` flag): routing all changes through `update_buckets` is
not sufficient to keep the assertion from failing. -/
theorem C6_counterexample :
    (b1.map fun p => (p.1.id, p.1.identifiers)) = some (1, [0]) ∧
    gbB = 0 ∧ sB2.aborted = false ∧ sB2.num_elms = 1 ∧
    (b2.map fun p => p.2.aborted) = some true := by
  decide

/-- Every return of `next_bucket` with a non-empty identifier set is the
drain of a slot reached by internal steps (regardless of the returned
bucket number). -/
theorem next_bucket_drain_spec {nw fu : Nat} {s : Buckets} {b : Bucket} {s' : Buckets}
    (h : next_bucket nw fu s = some (b, s')) (hne : b.identifiers ≠ []) :
    ∃ s₁, NBSteps nw s s₁ ∧ (drain s₁).1 = b ∧ (drain s₁).2 = s' := by
  induction fu generalizing s with
  | zero => cases h
  | succ fu ih =>
    unfold next_bucket at h
    by_cases h1 : curBucketNonEmpty s = false ∧ 0 < s.num_elms
    · rw [if_pos h1] at h
      obtain ⟨s₁, hsteps, hc⟩ := ih h
      exact ⟨s₁, hsteps.head (NBStep.advance s h1.1 h1.2), hc⟩
    · rw [if_neg h1] at h
      by_cases h2 : s.num_elms = 0
      · rw [if_pos h2] at h
        injection h with h
        injection h with hb' hs'
        rw [← hb'] at hne
        exact absurd rfl hne
      · rw [if_neg h2] at h
        simp only at h
        by_cases h3 : (drain s).1.identifiers = []
        · rw [if_pos h3] at h
          obtain ⟨s₁, hsteps, hc⟩ := ih h
          exact ⟨s₁, hsteps.head (NBStep.stale s h1 h2 h3), hc⟩
        · rw [if_neg h3] at h
          injection h with h
          injection h with hb' hs'
          exact ⟨s, NBSteps.refl s, hb', hs'⟩

/-- **C3.** Every non-sentinel bucket returned by `next_bucket` is the
drain of the current slot of an internally reached snapshot whose oracle
is unchanged: each identifier in the returned set maps to the returned
bucket number at the moment of emission (stale entries are filtered
out), and `num_filtered` is the drained slot's pre-filter size. -/
theorem C3_emitted_matches_oracle (nw fu : Nat) (s : Buckets) (b : Bucket)
    (s' : Buckets) (h : next_bucket nw fu s = some (b, s'))
    (hb : b.id ≠ nullBkt) :
    (∀ i ∈ b.identifiers, s.d i = b.id) ∧
    ∃ s₁, NBSteps nw s s₁ ∧ s₁.d = s.d ∧ b.id = get_cur_bucket_num s₁ ∧
      b.num_filtered = (getSlot s₁ s₁.cur_bkt).size ∧
      b.identifiers = (getSlot s₁ s₁.cur_bkt).content.filter
        (fun i => decide (s₁.d i = get_cur_bucket_num s₁)) := by
  obtain ⟨s₁, hsteps, h1, h2, hdr1, hdr2, hne⟩ := next_bucket_emit_spec h hb
  have hd : s₁.d = s.d := NBSteps_d hsteps
  have hid : b.id = get_cur_bucket_num s₁ := by rw [← hdr1]; rfl
  have hnf : b.num_filtered = (getSlot s₁ s₁.cur_bkt).size := by rw [← hdr1]; rfl
  have hids : b.identifiers = (getSlot s₁ s₁.cur_bkt).content.filter
      (fun i => decide (s₁.d i = get_cur_bucket_num s₁)) := by rw [← hdr1]; rfl
  refine ⟨?_, s₁, hsteps, hd, hid, hnf, hids⟩
  intro i hi
  rw [hids] at hi
  have hdec := List.of_mem_filter hi
  have h3 := of_decide_eq_true hdec
  rw [← hd]
  rw [hid]
  exact h3

/-- The C3 witness run: one identifier seeded into open bucket 1. -/
def c3s : Buckets := make_buckets 1 1 (fun _ => 1) .increasing 3

def c3r : Option (Bucket × Buckets) := next_bucket 1 5 c3s

def c3b : Bucket :=
  (c3r.map Prod.fst).getD { id := 0, num_filtered := 0, identifiers := [] }

def c3t : Buckets := (c3r.map Prod.snd).getD c3s

theorem C3_emitted_matches_oracle_witness :
    (∀ i ∈ c3b.identifiers, c3s.d i = c3b.id) ∧
    ∃ s₁, NBSteps 1 c3s s₁ ∧ s₁.d = c3s.d ∧ c3b.id = get_cur_bucket_num s₁ ∧
      c3b.num_filtered = (getSlot s₁ s₁.cur_bkt).size ∧
      c3b.identifiers = (getSlot s₁ s₁.cur_bkt).content.filter
        (fun i => decide (s₁.d i = get_cur_bucket_num s₁)) :=
  C3_emitted_matches_oracle 1 5 c3s c3b c3t rfl (by decide)

/-- **C9.** On an `next_bucket` return whose identifiers genuinely map
to non-sentinel bucket numbers, the returned bucket number is `NULL_BKT`
exactly when no identifiers remain afterwards and the returned set is
empty; and on a call made at `num_elms = 0` the sentinel bucket with the
empty set is returned and the state is untouched. -/
theorem C9_sentinel_signals_exhaustion (nw fu : Nat) (s : Buckets) (b : Bucket)
    (s' : Buckets) (h : next_bucket nw fu s = some (b, s'))
    (hd : ∀ i ∈ b.identifiers, s.d i ≠ nullBkt) :
    (b.id = nullBkt ↔ b.identifiers = [] ∧ s'.num_elms = 0) ∧
    (s.num_elms = 0 →
      b = { id := nullBkt, num_filtered := 0, identifiers := [] } ∧ s' = s) := by
  constructor
  · constructor
    · intro hnull
      by_cases hids : b.identifiers = []
      · obtain ⟨hb', hnum, _⟩ := next_bucket_sentinel_spec h hids
        exact ⟨hids, hnum⟩
      · obtain ⟨s₁, hsteps, hdr1, hdr2⟩ := next_bucket_drain_spec h hids
        obtain ⟨i, hi⟩ := List.exists_mem_of_ne_nil _ hids
        have hid1 : (drain s₁).1.identifiers =
            (getSlot s₁ s₁.cur_bkt).content.filter
              (fun j => decide (s₁.d j = get_cur_bucket_num s₁)) := rfl
        have hi' : i ∈ (getSlot s₁ s₁.cur_bkt).content.filter
            (fun j => decide (s₁.d j = get_cur_bucket_num s₁)) := by
          rw [← hid1, hdr1]
          exact hi
        have hdi : s₁.d i = get_cur_bucket_num s₁ :=
          of_decide_eq_true (List.mem_filter.mp hi').2
        have hidb : b.id = get_cur_bucket_num s₁ := by rw [← hdr1]; rfl
        rw [NBSteps_d hsteps] at hdi
        exact absurd (hdi.trans (hidb.symm.trans hnull)) (hd i hi)
    · intro hc
      obtain ⟨hb', _, _⟩ := next_bucket_sentinel_spec h hc.1
      rw [hb']
  · intro h0
    cases fu with
    | zero => cases h
    | succ fu =>
      unfold next_bucket at h
      rw [if_neg (fun hc => by rw [h0] at hc; exact Nat.lt_irrefl 0 hc.2), if_pos h0] at h
      injection h with h
      injection h with hb' hs'
      exact ⟨hb'.symm, hs'.symm⟩

/-- The C9 witness run: one identifier seeded into open bucket 0. -/
def c9s : Buckets := make_buckets 1 1 (fun _ => 0) .increasing 3

def c9r : Option (Bucket × Buckets) := next_bucket 1 5 c9s

def c9b : Bucket :=
  (c9r.map Prod.fst).getD { id := 0, num_filtered := 0, identifiers := [] }

def c9t : Buckets := (c9r.map Prod.snd).getD c9s

theorem C9_sentinel_signals_exhaustion_witness :
    (c9b.id = nullBkt ↔ c9b.identifiers = [] ∧ c9t.num_elms = 0) ∧
    (c9s.num_elms = 0 →
      c9b = { id := nullBkt, num_filtered := 0, identifiers := [] } ∧ c9t = c9s) :=
  C9_sentinel_signals_exhaustion 1 5 c9s c9b c9t rfl (by decide)

/-! ### The reachable-state invariant -/

/-- The structural well-formedness every state reachable through the
public interface keeps: the slot array matches `total_buckets`, the
window geometry is the constructor's, every slot's size is within its
buffer, and `num_elms` counts the slot sizes. -/
def GoodCore (s : Buckets) : Prop :=
  s.bkts.length = s.total_buckets ∧
  s.open_buckets = s.total_buckets - 1 ∧
  2 ≤ s.total_buckets ∧
  SlotsWF s ∧
  s.num_elms = ∑ b ∈ Finset.range s.bkts.length, (getSlot s b).size

/-- `GoodCore` together with the open-slot cursor staying inside the
window. -/
def Good (s : Buckets) : Prop := GoodCore s ∧ s.cur_bkt < s.open_buckets

theorem size_le_sum {s : Buckets} {b : Nat} (hb : b < s.bkts.length)
    (hsum : s.num_elms = ∑ c ∈ Finset.range s.bkts.length, (getSlot s c).size) :
    (getSlot s b).size ≤ s.num_elms := by
  rw [hsum]
  exact Finset.single_le_sum (f := fun c => (getSlot s c).size)
    (fun c _ => Nat.zero_le _) (Finset.mem_range.mpr hb)

theorem sum_sizes_setSlot {s : Buckets} {b : Nat} (hb : b < s.bkts.length)
    (a : DynArr) :
    (∑ c ∈ Finset.range (setSlot s b a).bkts.length,
        (getSlot (setSlot s b a) c).size) + (getSlot s b).size =
      (∑ c ∈ Finset.range s.bkts.length, (getSlot s c).size) + a.size := by
  have hlen : (setSlot s b a).bkts.length = s.bkts.length := by
    simp [setSlot]
  rw [hlen]
  have hmem : b ∈ Finset.range s.bkts.length := Finset.mem_range.mpr hb
  rw [Finset.sum_eq_sum_diff_singleton_add hmem
    (fun c => (getSlot (setSlot s b a) c).size),
    Finset.sum_eq_sum_diff_singleton_add hmem (fun c => (getSlot s c).size)]
  have hoff : ∑ c ∈ Finset.range s.bkts.length \ {b},
      (getSlot (setSlot s b a) c).size =
      ∑ c ∈ Finset.range s.bkts.length \ {b}, (getSlot s c).size := by
    refine Finset.sum_congr rfl ?_
    intro c hc
    have hcb : b ≠ c := fun he =>
      (Finset.mem_sdiff.mp hc).2 (Finset.mem_singleton.mpr he.symm)
    rw [getSlot_setSlot_ne hcb]
  rw [hoff, getSlot_setSlot_self hb]
  omega

theorem sum_sizes_updRef {f : Nat → Option (Nat × Nat)} {k : Nat} {s : Buckets}
    (hT : s.bkts.length = s.total_buckets)
    (hD : DestsBelow f k s.total_buckets) :
    ∑ b ∈ Finset.range (updRef f k s).1.bkts.length,
        (getSlot (updRef f k s).1 b).size =
      (∑ b ∈ Finset.range s.bkts.length, (getSlot s b).size) + hitCount f k := by
  rw [length_updRef_bkts]
  have hpt : ∀ b ∈ Finset.range s.bkts.length,
      (getSlot (updRef f k s).1 b).size =
        (getSlot s b).size + (itemsFor f k b).length := by
    intro b hb
    rw [getSlot_updRef (Finset.mem_range.mp hb), size_refSlot]
  rw [Finset.sum_congr rfl hpt, Finset.sum_add_distrib]
  congr 1
  rw [hT]
  exact sum_itemsFor_length k hD

/-- `GoodCore` ignores the cursor, range, `max_bkt` and abort fields. -/
theorem goodCore_irrel {t : Buckets} (hG : GoodCore t) (cb mb cr : Nat) (ab : Bool) :
    GoodCore { t with cur_bkt := cb, max_bkt := mb, cur_range := cr, aborted := ab } :=
  hG

/-- `GoodCore` ignores the oracle. -/
theorem goodCore_mut {t : Buckets} (hG : GoodCore t) (d' : Nat → Nat) :
    GoodCore { t with d := d' } := hG

theorem goodCore_update_buckets (nw : Nat) {f : Nat → Option (Nat × Nat)} {k : Nat}
    {s : Buckets} (hG : GoodCore s) (hD : DestsBelow f k s.total_buckets) :
    GoodCore (update_buckets nw f k s).1 := by
  obtain ⟨hT, hO, h2, hWF, hsum⟩ := hG
  rw [update_buckets_eq_updRef nw f k s hT hWF hD]
  refine ⟨?_, hO, h2, updRef_slotsWF hWF, ?_⟩
  · show (updRef f k s).1.bkts.length = s.total_buckets
    rw [length_updRef_bkts]
    exact hT
  · show s.num_elms + hitCount f k = _
    rw [sum_sizes_updRef hT hD, hsum]

theorem drain_snd_eq (s : Buckets) :
    (drain s).2 =
      { setSlot s s.cur_bkt { getSlot s s.cur_bkt with size := 0 } with
          num_elms := s.num_elms - (getSlot s s.cur_bkt).size } := rfl

theorem good_drain {s : Buckets} (hG : Good s) :
    Good (drain s).2 ∧
      (drain s).2.num_elms + (getSlot s s.cur_bkt).size = s.num_elms := by
  obtain ⟨⟨hT, hO, h2, hWF, hsum⟩, hcb⟩ := hG
  have hbL : s.cur_bkt < s.bkts.length := by omega
  have hszle : (getSlot s s.cur_bkt).size ≤ s.num_elms := size_le_sum hbL hsum
  have hset := sum_sizes_setSlot hbL { getSlot s s.cur_bkt with size := 0 }
  rw [show ({ getSlot s s.cur_bkt with size := 0 } : DynArr).size = 0 from rfl] at hset
  refine ⟨⟨⟨?_, hO, h2, ?_, ?_⟩, hcb⟩, ?_⟩
  · show (setSlot s s.cur_bkt { getSlot s s.cur_bkt with size := 0 }).bkts.length =
      s.total_buckets
    simp only [setSlot, List.length_set]
    exact hT
  · intro a ha
    simp only [drain_snd_eq, setSlot] at ha
    rcases List.mem_or_eq_of_mem_set ha with ha' | ha'
    · exact hWF a ha'
    · rw [ha']
      exact Nat.zero_le _
  · show s.num_elms - (getSlot s s.cur_bkt).size =
      ∑ c ∈ Finset.range
        (setSlot s s.cur_bkt { getSlot s s.cur_bkt with size := 0 }).bkts.length,
        (getSlot (setSlot s s.cur_bkt { getSlot s s.cur_bkt with size := 0 }) c).size
    omega
  · show s.num_elms - (getSlot s s.cur_bkt).size + (getSlot s s.cur_bkt).size =
      s.num_elms
    omega

theorem foldl_min_le_seed {g : Nat → Nat} (l : List Nat) (a : Nat) :
    l.foldl (fun x j => min x (g j)) a ≤ a := by
  induction l generalizing a with
  | nil => exact Nat.le_refl a
  | cons x l ih => exact le_trans (ih (min a (g x))) (Nat.min_le_left _ _)

theorem foldl_min_le {g : Nat → Nat} {l : List Nat} {i : Nat} (a : Nat)
    (hi : i ∈ l) : l.foldl (fun x j => min x (g j)) a ≤ g i := by
  induction l generalizing a with
  | nil => cases hi
  | cons x l ih =>
    rw [List.foldl_cons]
    rcases List.mem_cons.mp hi with h | h
    · subst h
      exact le_trans (foldl_min_le_seed l _) (Nat.min_le_right _ _)
    · exact ih _ h

theorem foldl_max_ge {g : Nat → Nat} {l : List Nat} {i : Nat} (a : Nat)
    (hi : i ∈ l) : g i ≤ l.foldl (fun x j => max x (g j)) a := by
  have seed : ∀ (l2 : List Nat) (a2 : Nat),
      a2 ≤ l2.foldl (fun x j => max x (g j)) a2 := by
    intro l2
    induction l2 with
    | nil => exact fun a2 => Nat.le_refl a2
    | cons x l2 ih =>
      exact fun a2 => le_trans (Nat.le_max_left _ _) (ih (max a2 (g x)))
  induction l generalizing a with
  | nil => cases hi
  | cons x l ih =>
    rw [List.foldl_cons]
    rcases List.mem_cons.mp hi with h | h
    · subst h
      exact le_trans (Nat.le_max_right _ _) (seed l _)
    · exact ih _ h

theorem reduceMin_le {n : Nat} {d : Nat → Nat} {i : Nat} (hi : i < n) :
    reduceMin n d ≤ d i :=
  foldl_min_le nullBkt (List.mem_range.mpr hi)

theorem reduceMax_ge {n : Nat} {d : Nat → Nat} {i : Nat} (hi : i < n)
    (hnn : d i ≠ nullBkt) : d i ≤ reduceMax n d := by
  have h := foldl_max_ge (g := fun j => if d j = nullBkt then 0 else d j) 0
    (List.mem_range.mpr hi)
  dsimp only at h
  rw [if_neg hnn] at h
  exact h

/-- Every value of `to_range` is the sentinel or a materialized slot. -/
theorem to_range_bound {s : Buckets} (hO : 0 < s.open_buckets)
    (hOT : s.open_buckets < s.total_buckets) (bkt : Nat) :
    to_range s bkt = nullBkt ∨ to_range s bkt < s.total_buckets := by
  unfold to_range
  cases hord : s.order with
  | increasing =>
    dsimp only
    split_ifs with h1 h2
    · exact Or.inl rfl
    · exact Or.inr (lt_trans (Nat.mod_lt _ hO) hOT)
    · exact Or.inr hOT
  | decreasing =>
    dsimp only
    split_ifs with h1 h2
    · exact Or.inl rfl
    · exact Or.inr (lt_of_le_of_lt (by omega) hOT)
    · exact Or.inr hOT

/-! #### Field-preservation corollaries of `shape_update_buckets` -/

theorem open_buckets_update_buckets (nw : Nat) (f : Nat → Option (Nat × Nat))
    (k : Nat) (s : Buckets) :
    (update_buckets nw f k s).1.open_buckets = s.open_buckets :=
  congrArg (fun t => t.2.2.2.1) (shape_update_buckets nw f k s)

theorem total_buckets_update_buckets (nw : Nat) (f : Nat → Option (Nat × Nat))
    (k : Nat) (s : Buckets) :
    (update_buckets nw f k s).1.total_buckets = s.total_buckets :=
  congrArg (fun t => t.2.2.2.2.1) (shape_update_buckets nw f k s)

theorem cur_bkt_update_buckets (nw : Nat) (f : Nat → Option (Nat × Nat))
    (k : Nat) (s : Buckets) :
    (update_buckets nw f k s).1.cur_bkt = s.cur_bkt :=
  congrArg (fun t => t.2.2.2.2.2.1) (shape_update_buckets nw f k s)

theorem cur_range_update_buckets (nw : Nat) (f : Nat → Option (Nat × Nat))
    (k : Nat) (s : Buckets) :
    (update_buckets nw f k s).1.cur_range = s.cur_range :=
  congrArg (fun t => t.2.2.2.2.2.2.2.1) (shape_update_buckets nw f k s)

theorem order_update_buckets (nw : Nat) (f : Nat → Option (Nat × Nat))
    (k : Nat) (s : Buckets) :
    (update_buckets nw f k s).1.order = s.order :=
  congrArg (fun t => t.2.2.1) (shape_update_buckets nw f k s)

theorem aborted_update_buckets (nw : Nat) (f : Nat → Option (Nat × Nat))
    (k : Nat) (s : Buckets) :
    (update_buckets nw f k s).1.aborted = s.aborted :=
  congrArg (fun t => t.2.2.2.2.2.2.2.2.2) (shape_update_buckets nw f k s)

/-! #### A structured view of `unpack` -/

/-- The range advance at the head of `unpack` (src/bucket.h lines
305–309). -/
def unpackS1 (s : Buckets) : Buckets :=
  { s with cur_range :=
      match s.order with
      | .increasing => s.cur_range + 1
      | .decreasing => s.cur_range - 1 }

/-- `unpack` after zeroing the overflow slot (line 311). -/
def unpackMid (s : Buckets) : Buckets :=
  setSlot (unpackS1 s) (unpackS1 s).open_buckets
    { getSlot (unpackS1 s) (unpackS1 s).open_buckets with size := 0 }

/-- The copied-out overflow contents (line 303). -/
def unpackTmp (s : Buckets) : List Nat :=
  (getSlot s s.open_buckets).A.take (getSlot s s.open_buckets).size

/-- The re-insertion batch of `unpack` (lines 313–316). -/
def unpackBatch (s : Buckets) : Nat → Option (Nat × Nat) :=
  fun i =>
    some ((unpackTmp s).getD i 0,
      to_range (unpackMid s) ((unpackMid s).d ((unpackTmp s).getD i 0)))

/-- `unpack` after the `m == num_elms` check (lines 318–323). -/
def unpackS3 (s : Buckets) : Buckets :=
  if (getSlot s s.open_buckets).size ≠ (unpackMid s).num_elms then
    { unpackMid s with aborted := true, cur_bkt := 0 }
  else unpackMid s

theorem unpack_eq (nw : Nat) (s : Buckets) :
    unpack nw s =
      { (update_buckets nw (unpackBatch s) (getSlot s s.open_buckets).size
          (unpackS3 s)).1 with
        num_elms :=
          (update_buckets nw (unpackBatch s) (getSlot s s.open_buckets).size
            (unpackS3 s)).1.num_elms - (getSlot s s.open_buckets).size } := rfl

theorem unpackMid_eq (s : Buckets) :
    unpackMid s =
      { s with
        cur_range :=
          match s.order with
          | .increasing => s.cur_range + 1
          | .decreasing => s.cur_range - 1,
        bkts := s.bkts.set s.open_buckets
          { getSlot s s.open_buckets with size := 0 } } := rfl

theorem unpackS3_bkts (s : Buckets) : (unpackS3 s).bkts = (unpackMid s).bkts := by
  unfold unpackS3
  split <;> rfl

theorem unpackS3_num (s : Buckets) :
    (unpackS3 s).num_elms = s.num_elms := by
  unfold unpackS3
  split <;> rfl

theorem unpackS3_total (s : Buckets) :
    (unpackS3 s).total_buckets = s.total_buckets := by
  unfold unpackS3
  split <;> rfl

theorem unpackS3_open (s : Buckets) :
    (unpackS3 s).open_buckets = s.open_buckets := by
  unfold unpackS3
  split <;> rfl

theorem goodCore_unpack (nw : Nat) {s : Buckets} (hG : GoodCore s) :
    GoodCore (unpack nw s) := by
  obtain ⟨hT, hO, h2, hWF, hsum⟩ := hG
  have hOL : s.open_buckets < s.bkts.length := by omega
  have hmid_len : (unpackMid s).bkts.length = s.bkts.length := by
    rw [unpackMid_eq]
    simp
  have hmid_wf : SlotsWF (unpackMid s) := by
    intro a ha
    rw [unpackMid_eq] at ha
    simp only at ha
    rcases List.mem_or_eq_of_mem_set ha with h | h
    · exact hWF a h
    · rw [h]
      exact Nat.zero_le _
  have hmid_sum : (∑ c ∈ Finset.range (unpackMid s).bkts.length,
        (getSlot (unpackMid s) c).size) + (getSlot s s.open_buckets).size =
      ∑ c ∈ Finset.range s.bkts.length, (getSlot s c).size := by
    have hss := sum_sizes_setSlot hOL
      { getSlot s s.open_buckets with size := 0 }
    rw [show ({ getSlot s s.open_buckets with size := 0 } : DynArr).size = 0
      from rfl, Nat.add_zero] at hss
    show (∑ c ∈ Finset.range (setSlot s s.open_buckets
        { getSlot s s.open_buckets with size := 0 }).bkts.length,
        (getSlot (setSlot s s.open_buckets
          { getSlot s s.open_buckets with size := 0 }) c).size) +
      (getSlot s s.open_buckets).size =
      ∑ c ∈ Finset.range s.bkts.length, (getSlot s c).size
    exact hss
  have hmzle : (getSlot s s.open_buckets).size ≤
      ∑ c ∈ Finset.range s.bkts.length, (getSlot s c).size := by
    rw [← hsum]
    exact size_le_sum hOL hsum
  have hs3_len : (unpackS3 s).bkts.length = (unpackS3 s).total_buckets := by
    rw [unpackS3_bkts, unpackS3_total, hmid_len, hT]
  have hs3_wf : SlotsWF (unpackS3 s) := by
    intro a ha
    rw [unpackS3_bkts] at ha
    exact hmid_wf a ha
  have hs3_get : ∀ c, getSlot (unpackS3 s) c = getSlot (unpackMid s) c := by
    intro c
    unfold getSlot
    rw [unpackS3_bkts]
  have hD : DestsBelow (unpackBatch s) (getSlot s s.open_buckets).size
      (unpackS3 s).total_buckets := by
    intro j hj v b hf hbn
    unfold unpackBatch at hf
    injection hf with hf
    injection hf with h1 hb2
    rw [unpackS3_total, ← hT]
    have hObd := to_range_bound (s := unpackMid s)
      (by show 0 < s.open_buckets; omega)
      (by show s.open_buckets < s.total_buckets; omega)
      ((unpackMid s).d ((unpackTmp s).getD j 0))
    rcases hObd with hnull | hlt
    · rw [← hb2] at hbn
      exact absurd hnull hbn
    · rw [← hb2]
      show to_range (unpackMid s) _ < s.bkts.length
      rw [hT]
      exact hlt
  rw [unpack_eq,
    update_buckets_eq_updRef nw (unpackBatch s) (getSlot s s.open_buckets).size
      (unpackS3 s) hs3_len hs3_wf hD]
  have hraw := sum_sizes_updRef hs3_len hD
  refine ⟨?_, ?_, ?_, ?_, ?_⟩
  · show (updRef (unpackBatch s) (getSlot s s.open_buckets).size
        (unpackS3 s)).1.bkts.length =
      (unpackS3 s).total_buckets
    rw [length_updRef_bkts]
    exact hs3_len
  · show (unpackS3 s).open_buckets = (unpackS3 s).total_buckets - 1
    rw [unpackS3_open, unpackS3_total]
    exact hO
  · show 2 ≤ (unpackS3 s).total_buckets
    rw [unpackS3_total]
    exact h2
  · show SlotsWF (updRef (unpackBatch s) (getSlot s s.open_buckets).size
      (unpackS3 s)).1
    exact updRef_slotsWF hs3_wf
  · show (unpackS3 s).num_elms +
        hitCount (unpackBatch s) (getSlot s s.open_buckets).size -
        (getSlot s s.open_buckets).size =
      ∑ b ∈ Finset.range (updRef (unpackBatch s)
          (getSlot s s.open_buckets).size (unpackS3 s)).1.bkts.length,
        (getSlot (updRef (unpackBatch s) (getSlot s s.open_buckets).size
          (unpackS3 s)).1 b).size
    have hsum3 : ∑ c ∈ Finset.range (unpackS3 s).bkts.length,
        (getSlot (unpackS3 s) c).size =
        ∑ c ∈ Finset.range (unpackMid s).bkts.length,
          (getSlot (unpackMid s) c).size := by
      refine Finset.sum_congr (by rw [unpackS3_bkts]) ?_
      intro c _
      rw [hs3_get c]
    rw [hraw, unpackS3_num, hsum3, hsum]
    omega

theorem good_next_bucket_step (nw : Nat) {s : Buckets} (hG : Good s) :
    Good (next_bucket_step nw s) := by
  obtain ⟨hCore, hcb⟩ := hG
  have h2 : 2 ≤ s.total_buckets := hCore.2.2.1
  have hO : s.open_buckets = s.total_buckets - 1 := hCore.2.1
  unfold next_bucket_step
  simp only
  split
  · constructor
    · have hc1 : GoodCore { s with cur_bkt := s.cur_bkt + 1 } := hCore
      exact goodCore_unpack nw hc1
    · have hopen : ({ unpack nw { s with cur_bkt := s.cur_bkt + 1 } with
          cur_bkt := 0 } : Buckets).open_buckets = s.open_buckets := by
        show (unpack nw { s with cur_bkt := s.cur_bkt + 1 }).open_buckets =
          s.open_buckets
        rw [unpack_eq, open_buckets_update_buckets, unpackS3_open]
      rw [hopen]
      show 0 < s.open_buckets
      omega
  · exact ⟨hCore, by show s.cur_bkt + 1 < s.open_buckets; omega⟩

theorem good_NBStep {nw : Nat} {s t : Buckets} (h : NBStep nw s t) (hG : Good s) :
    Good t := by
  cases h with
  | advance h1 h2 => exact good_next_bucket_step nw hG
  | stale h1 h2 h3 => exact (good_drain hG).1

theorem good_NBSteps {nw : Nat} {s t : Buckets} (h : NBSteps nw s t) (hG : Good s) :
    Good t := by
  induction h with
  | refl => exact hG
  | tail hst hstep ih => exact good_NBStep hstep ih

theorem good_next_bucket {nw fu : Nat} {s : Buckets} {b : Bucket} {s' : Buckets}
    (hG : Good s) (h : next_bucket nw fu s = some (b, s')) : Good s' := by
  by_cases hids : b.identifiers = []
  · obtain ⟨_, _, hsteps⟩ := next_bucket_sentinel_spec h hids
    exact good_NBSteps hsteps hG
  · obtain ⟨s₁, hsteps, _, hdr2⟩ := next_bucket_drain_spec h hids
    rw [← hdr2]
    exact (good_drain (good_NBSteps hsteps hG)).1

/-! #### Reachability through the public interface -/

/-- States reachable from `s` through the public interface: `next_bucket`
calls, `update_buckets` calls whose effective destinations address
materialized slots and respect the extra discipline `P`, and consumer
mutations of the priority oracle. -/
inductive Reach (nw : Nat) (P : Buckets → Nat → Prop) : Buckets → Buckets → Prop where
  | refl (s : Buckets) : Reach nw P s s
  | next {s t u : Buckets} {b : Bucket} (fu : Nat) (h : Reach nw P s t)
      (hn : next_bucket nw fu t = some (b, u)) : Reach nw P s u
  | upd {s t : Buckets} (f : Nat → Option (Nat × Nat)) (k : Nat)
      (h : Reach nw P s t)
      (hD : ∀ j, j < k → ∀ v bkt, f j = some (v, bkt) →
        bkt = nullBkt ∨ (bkt < t.total_buckets ∧ P t bkt)) :
      Reach nw P s (update_buckets nw f k t).1
  | mutate {s t : Buckets} (d' : Nat → Nat) (h : Reach nw P s t) :
      Reach nw P s { t with d := d' }

theorem good_Reach {nw : Nat} {P : Buckets → Nat → Prop} {s t : Buckets}
    (h : Reach nw P s t) (hG : Good s) : Good t := by
  induction h with
  | refl => exact hG
  | next fu h hn ih => exact good_next_bucket ih hn
  | upd f k h hD ih =>
    refine ⟨goodCore_update_buckets _ ih.1 ?_, ?_⟩
    · intro j hj v bkt hf hbn
      rcases hD j hj v bkt hf with h1 | h1
      · exact absurd h1 hbn
      · exact h1.1
    · rw [cur_bkt_update_buckets, open_buckets_update_buckets]
      exact ih.2
  | mutate d' h ih => exact ⟨goodCore_mut ih.1 d', ih.2⟩

/-- The constructor establishes the invariant. -/
theorem good_make_buckets (nw n : Nat) (d : Nat → Nat) (ord : BucketOrder)
    {T : Nat} (h2 : 2 ≤ T) : Good (make_buckets nw n d ord T) := by
  rw [make_buckets_eq]
  have hgz : ∀ b, getSlot (mkInit n d ord T) b = ⟨[], 0⟩ ∨
      getSlot (mkInit n d ord T) b = ⟨[], 0⟩ := by
    intro b
    exact Or.inl (by
      show (List.replicate T (⟨[], 0⟩ : DynArr)).getD b ⟨[], 0⟩ = _
      rcases Nat.lt_or_ge b T with hb | hb
      · rw [List.getD_eq_getElem?_getD, List.getElem?_replicate, if_pos hb]
        rfl
      · rw [List.getD_eq_getElem?_getD, List.getElem?_eq_none]
        · rfl
        · simp only [List.length_replicate]
          omega)
  have hCore0 : GoodCore (mkInit n d ord T) := by
    refine ⟨by simp [mkInit], rfl, h2, ?_, ?_⟩
    · intro a ha
      have := List.eq_of_mem_replicate ha
      rw [this]
      exact Nat.le_refl 0
    · show (0 : Nat) = _
      rw [Finset.sum_congr rfl (fun b _ => by rcases hgz b with h | h <;> rw [h])]
      simp
  have hD : DestsBelow (seedBatch d (mkInit n d ord T)) n
      (mkInit n d ord T).total_buckets := by
    intro j hj v b hf hbn
    unfold seedBatch at hf
    injection hf with hf
    injection hf with h1 hb2
    by_cases hdn : d j ≠ nullBkt
    · rw [if_pos hdn] at hb2
      have hbd := to_range_bound (s := mkInit n d ord T)
        (by show 0 < T - 1; omega) (by show T - 1 < T; omega) (d j)
      rcases hbd with hnull | hlt
      · rw [← hb2] at hbn
        exact absurd hnull hbn
      · rw [← hb2]
        exact hlt
    · rw [if_neg hdn] at hb2
      rw [← hb2] at hbn
      rw [not_not] at hdn
      exact absurd hdn hbn
  refine ⟨goodCore_update_buckets nw hCore0 hD, ?_⟩
  rw [cur_bkt_update_buckets, open_buckets_update_buckets]
  show (0 : Nat) < T - 1
  omega

/-! #### Construction count -/

theorem div_mul_lower (x O : Nat) (hO : 0 < O) : x < ((x + O) / O) * O := by
  have hdm := Nat.div_add_mod (x + O) O
  have hml := Nat.mod_lt (x + O) hO
  rw [Nat.mul_comm]
  omega

theorem mkInit_len (n : Nat) (d : Nat → Nat) (ord : BucketOrder) (T : Nat) :
    (mkInit n d ord T).bkts.length = (mkInit n d ord T).total_buckets := by
  simp [mkInit]

theorem mkInit_wf (n : Nat) (d : Nat → Nat) (ord : BucketOrder) (T : Nat) :
    SlotsWF (mkInit n d ord T) := by
  intro a ha
  have := List.eq_of_mem_replicate ha
  rw [this]
  exact Nat.le_refl 0

theorem seed_destsBelow (n : Nat) (d : Nat → Nat) (ord : BucketOrder) {T : Nat}
    (h2 : 2 ≤ T) :
    DestsBelow (seedBatch d (mkInit n d ord T)) n
      (mkInit n d ord T).total_buckets := by
  intro j hj v b hf hbn
  unfold seedBatch at hf
  injection hf with hf
  injection hf with h1 hb2
  by_cases hdn : d j ≠ nullBkt
  · rw [if_pos hdn] at hb2
    have hbd := to_range_bound (s := mkInit n d ord T)
      (by show 0 < T - 1; omega) (by show T - 1 < T; omega) (d j)
    rcases hbd with hnull | hlt
    · rw [← hb2] at hbn
      exact absurd hnull hbn
    · rw [← hb2]
      exact hlt
  · rw [if_neg hdn] at hb2
    rw [← hb2] at hbn
    rw [not_not] at hdn
    exact absurd hdn hbn

/-- With `2 ≤ total_buckets ≤ NULL_BKT`, the constructor's seed of a
non-null priority is effective, and of a null priority is not. -/
theorem hitOf_seedBatch {n : Nat} {d : Nat → Nat} {ord : BucketOrder} {T : Nat}
    (h2 : 2 ≤ T) (hle : T ≤ nullBkt) {i : Nat} (hi : i < n) :
    (hitOf (seedBatch d (mkInit n d ord T)) i).isSome = decide (d i ≠ nullBkt) := by
  have hnb : nullBkt = 4294967295 := rfl
  unfold hitOf seedBatch
  simp only
  by_cases hdn : d i ≠ nullBkt
  · rw [if_pos hdn]
    have hval : to_range (mkInit n d ord T) (d i) ≠ nullBkt := by
      unfold to_range
      cases ord with
      | increasing =>
        rw [show (mkInit n d .increasing T).order = .increasing from rfl]
        dsimp only
        rw [show (mkInit n d .increasing T).cur_range =
            reduceMin n d / (T - 1) from rfl,
          show (mkInit n d .increasing T).open_buckets = T - 1 from rfl]
        have hd1 := Nat.div_mul_le_self (reduceMin n d) (T - 1)
        have hd2 := reduceMin_le (d := d) hi
        rw [if_neg (by omega)]
        by_cases hb2 : d i < (reduceMin n d / (T - 1) + 1) * (T - 1)
        · rw [if_pos hb2]
          have hm := Nat.mod_lt (d i) (show 0 < T - 1 by omega)
          omega
        · rw [if_neg hb2]
          omega
      | decreasing =>
        rw [show (mkInit n d .decreasing T).order = .decreasing from rfl]
        dsimp only
        rw [show (mkInit n d .decreasing T).cur_range =
            (reduceMax n d + (T - 1)) / (T - 1) from rfl,
          show (mkInit n d .decreasing T).open_buckets = T - 1 from rfl]
        have hd1 := div_mul_lower (reduceMax n d) (T - 1) (by omega)
        have hd2 := reduceMax_ge hi hdn
        rw [if_neg (by omega)]
        by_cases hb2 : ((reduceMax n d + (T - 1)) / (T - 1) - 1) * (T - 1) ≤ d i
        · rw [if_pos hb2]
          omega
        · rw [if_neg hb2]
          omega
    rw [if_pos hval]
    simp [hdn]
  · rw [if_neg hdn]
    rw [not_not] at hdn
    rw [if_neg (by rw [hdn]; exact fun hc => hc rfl)]
    simp [hdn]

theorem make_buckets_num_elms {nw n : Nat} {d : Nat → Nat} {ord : BucketOrder}
    {T : Nat} (h2 : 2 ≤ T) (hle : T ≤ nullBkt) :
    (make_buckets nw n d ord T).num_elms =
      ((List.range n).filter (fun i => decide (d i ≠ nullBkt))).length := by
  rw [make_buckets_eq,
    update_buckets_eq_updRef nw _ n (mkInit n d ord T) (mkInit_len n d ord T)
      (mkInit_wf n d ord T) (seed_destsBelow n d ord h2)]
  show (mkInit n d ord T).num_elms +
    hitCount (seedBatch d (mkInit n d ord T)) n = _
  rw [show (mkInit n d ord T).num_elms = 0 from rfl, Nat.zero_add]
  unfold hitCount
  rw [List.countP_congr (fun i hi => by
    rw [hitOf_seedBatch h2 hle (List.mem_range.mp hi)])]
  exact List.countP_eq_length_filter _ _

theorem length_filter_not {α : Type} (l : List α) (p : α → Bool) :
    (l.filter p).length + (l.filter (fun a => ! p a)).length = l.length := by
  induction l with
  | nil => rfl
  | cons x l ih =>
    cases hpx : p x <;> simp only [List.filter_cons, hpx, Bool.not_false,
      Bool.not_true, if_pos, if_neg, List.length_cons, Bool.false_eq_true,
      ite_true, ite_false] <;> omega

/-- **C7 (amended: the construction count needs `2 ≤ total_buckets ≤
NULL_BKT`).** After construction, `num_elms` is the number of
identifiers with a non-null priority; and every emit from a state
reachable from a constructed structure decreases `num_elms` by the
drained slot's pre-filter size, which is the emitted set size plus the
filtered-out stale entries. -/
theorem C7_count_conservation :
    (∀ (nw n : Nat) (d : Nat → Nat) (ord : BucketOrder) (T : Nat),
      2 ≤ T → T ≤ nullBkt →
      (make_buckets nw n d ord T).num_elms =
        ((List.range n).filter (fun i => decide (d i ≠ nullBkt))).length) ∧
    (∀ (nw : Nat) (P : Buckets → Nat → Prop) (n : Nat) (d : Nat → Nat)
      (ord : BucketOrder) (T : Nat) (s : Buckets) (fu : Nat) (b : Bucket)
      (s' : Buckets), 2 ≤ T →
      Reach nw P (make_buckets nw n d ord T) s →
      next_bucket nw fu s = some (b, s') → b.id ≠ nullBkt →
      ∃ s₁, NBSteps nw s s₁ ∧
        s'.num_elms + b.num_filtered = s₁.num_elms ∧
        b.num_filtered = b.identifiers.length +
          ((getSlot s₁ s₁.cur_bkt).content.filter
            (fun i => decide (¬ s₁.d i = b.id))).length) := by
  constructor
  · intro nw n d ord T h2 hle
    exact make_buckets_num_elms h2 hle
  · intro nw P n d ord T s fu b s' h2 hReach h hb
    have hGs : Good s := good_Reach hReach (good_make_buckets nw n d ord h2)
    obtain ⟨s₁, hsteps, h1, h2', hdr1, hdr2, hne⟩ := next_bucket_emit_spec h hb
    have hG1 : Good s₁ := good_NBSteps hsteps hGs
    have hacct := (good_drain hG1).2
    have hnf : b.num_filtered = (getSlot s₁ s₁.cur_bkt).size := by
      rw [← hdr1]; rfl
    have hids : b.identifiers = (getSlot s₁ s₁.cur_bkt).content.filter
        (fun i => decide (s₁.d i = get_cur_bucket_num s₁)) := by
      rw [← hdr1]; rfl
    have hidb : b.id = get_cur_bucket_num s₁ := by
      rw [← hdr1]; rfl
    refine ⟨s₁, hsteps, ?_, ?_⟩
    · rw [← hdr2, hnf]
      exact hacct
    · have hbL : s₁.cur_bkt < s₁.bkts.length := by
        have e1 := hG1.1.1
        have e2 := hG1.1.2.1
        have e3 := hG1.1.2.2.1
        have e4 := hG1.2
        omega
      have hWF1 : (getSlot s₁ s₁.cur_bkt).size ≤
          (getSlot s₁ s₁.cur_bkt).A.length := by
        refine hG1.1.2.2.2.1 (getSlot s₁ s₁.cur_bkt) ?_
        rw [getSlot_eq_getElem hbL]
        exact List.getElem_mem hbL
      have hclen : (getSlot s₁ s₁.cur_bkt).content.length =
          (getSlot s₁ s₁.cur_bkt).size := by
        unfold DynArr.content
        rw [List.length_take]
        omega
      rw [hnf, hids, hidb]
      have hnotp : (fun i => decide (¬ s₁.d i = get_cur_bucket_num s₁)) =
          (fun i => ! decide (s₁.d i = get_cur_bucket_num s₁)) := by
        funext i
        exact decide_not
      rw [hnotp, ← hclen]
      exact (length_filter_not (getSlot s₁ s₁.cur_bkt).content
        (fun i => decide (s₁.d i = get_cur_bucket_num s₁))).symm

/-- The C7 witness run: one identifier with priority 0, `T = 3`,
INCREASING. -/
def c7s : Buckets := make_buckets 1 1 (fun _ => 0) .increasing 3

def c7r : Option (Bucket × Buckets) := next_bucket 1 5 c7s

def c7b : Bucket :=
  (c7r.map Prod.fst).getD { id := 0, num_filtered := 0, identifiers := [] }

def c7t : Buckets := (c7r.map Prod.snd).getD c7s

theorem C7_count_conservation_witness :
    ((make_buckets 1 1 (fun _ => 0) .increasing 3).num_elms =
      ((List.range 1).filter
        (fun i => decide ((fun _ => (0 : Nat)) i ≠ nullBkt))).length) ∧
    (∃ s₁, NBSteps 1 c7s s₁ ∧
      c7t.num_elms + c7b.num_filtered = s₁.num_elms ∧
      c7b.num_filtered = c7b.identifiers.length +
        ((getSlot s₁ s₁.cur_bkt).content.filter
          (fun i => decide (¬ s₁.d i = c7b.id))).length) :=
  ⟨C7_count_conservation.1 1 1 (fun _ => 0) .increasing 3 (by decide) (by decide),
   C7_count_conservation.2 1 (fun _ _ => True) 1 (fun _ => 0) .increasing 3 c7s 5
     c7b c7t (by decide) (Reach.refl c7s) rfl (by decide)⟩

/-- The C7 boundary input: DECREASING order with `total_buckets = 2^32 +
1`. -/
def c7x : Buckets := make_buckets 1 1 (fun _ => 0) .decreasing (nullBkt + 2)

/-- **C7, counterexample.** With DECREASING order and `total_buckets =
2^32 + 1` (an open window of `2^32` slots), the single identifier with
priority 0 seeds to window slot `2^32 - 1`, which collides with the
`NULL_BKT` sentinel; the constructor drops it, so `num_elms = 0` while
the number of identifiers with non-null priority is 1. -/
theorem C7_counterexample :
    c7x.num_elms = 0 ∧
    ((List.range 1).filter
      (fun i => decide ((fun _ => (0 : Nat)) i ≠ nullBkt))).length = 1 := by
  constructor
  · have htr : to_range (mkInit 1 (fun _ => 0) .decreasing (nullBkt + 2)) 0 =
        nullBkt := by decide
    have hD : DestsBelow
        (seedBatch (fun _ => 0) (mkInit 1 (fun _ => 0) .decreasing (nullBkt + 2)))
        1 (mkInit 1 (fun _ => 0) .decreasing (nullBkt + 2)).total_buckets := by
      intro j hj v b hf hbn
      have hj0 : j = 0 := by omega
      subst hj0
      unfold seedBatch at hf
      injection hf with hf
      injection hf with h1 hb2
      rw [if_pos (by decide), htr] at hb2
      rw [← hb2] at hbn
      exact absurd rfl hbn
    show (make_buckets 1 1 (fun _ => 0) .decreasing (nullBkt + 2)).num_elms = 0
    rw [make_buckets_eq,
      update_buckets_eq_updRef 1 _ 1 (mkInit 1 (fun _ => 0) .decreasing (nullBkt + 2))
        (mkInit_len 1 (fun _ => 0) .decreasing (nullBkt + 2))
        (mkInit_wf 1 (fun _ => 0) .decreasing (nullBkt + 2)) hD]
    show (mkInit 1 (fun _ => 0) .decreasing (nullBkt + 2)).num_elms +
      hitCount (seedBatch (fun _ => 0)
        (mkInit 1 (fun _ => 0) .decreasing (nullBkt + 2))) 1 = 0
    decide
  · decide

end Bucketing
